import Mathlib

/-!
# Course Management System: store, loader and catalog operations

A shallow embedding of `CourseManagement_v1.2.cpp`.

* A `std::string` is a list of characters; `char` values are the ASCII range,
  where signed and unsigned `char` agree.
* A chain of `Node`s is the list of the courses it holds, head first; the
  `HashTable` is its vector of chains together with `tableSize`.
* Functions that mutate the table through a reference return the new table.
* Text read from `cin` by an operation is a parameter of the operation: the
  line typed at the prompt (the empty line at end of input).
* Console output is modelled by the value returned (an outcome and, where
  records are printed, the records).
-/

namespace CourseManagement

/-- A `std::string`. -/
abbrev Str := List Char

/-- The `Course` struct; the default constructor gives empty fields. -/
structure Course where
  courseNumber : Str
  courseTitle : Str
  prerequisites : List Str
  deriving DecidableEq, Repr

/-- The `HashTable` class: `table` holds one chain per bucket. -/
structure HashTable where
  table : List (List Course)
  tableSize : Nat
  deriving DecidableEq, Repr

namespace HashTable

/-- The constructor `HashTable(size)`: `size` empty buckets. -/
def new (size : Nat) : HashTable :=
  { table := List.replicate size [], tableSize := size }

/-- The constructor's default argument. -/
def defaultSize : Nat := 179

/-- The class invariant the constructor establishes: `table` has `tableSize`
buckets, and there is at least one (so that `hash` does not divide by zero). -/
def WF (ht : HashTable) : Prop :=
  ht.table.length = ht.tableSize ∧ 0 < ht.tableSize

instance (ht : HashTable) : Decidable ht.WF := by
  unfold WF; infer_instance

/-- `hash`: base-31 polynomial hash in `unsigned int`, modulo `tableSize`. -/
def hash (ht : HashTable) (key : Str) : Nat :=
  (key.foldl (fun hashValue ch => (hashValue * 31 + ch.toNat) % 2 ^ 32) 0) % ht.tableSize

/-- `insert`: the new node becomes the head of its bucket's chain. -/
def insert (ht : HashTable) (course : Course) : HashTable :=
  let index := ht.hash course.courseNumber
  match ht.table.getD index [] with
  | [] => { ht with table := ht.table.set index [course] }
  | head :: next => { ht with table := ht.table.set index (course :: head :: next) }

/-- The loop of `search` over one chain. -/
def searchChain : List Course → Str → Option Course
  | [], _ => none
  | current :: next, courseNumber =>
    if current.courseNumber = courseNumber then some current
    else searchChain next courseNumber

/-- `search`: the first course of the key's bucket with that number
(`none` for `nullptr`). -/
def search (ht : HashTable) (courseNumber : Str) : Option Course :=
  searchChain (ht.table.getD (ht.hash courseNumber) []) courseNumber

/-- `getAllCourses`: the chains of buckets `0 .. tableSize - 1`, in order. -/
def getAllCourses (ht : HashTable) : List Course :=
  (List.range ht.tableSize).flatMap (fun i => ht.table.getD i [])

/-- The loop of `remove` over one chain: unlinks the first node with the
number; the flag tells whether one was found. -/
def removeChain : List Course → Str → Bool × List Course
  | [], _ => (false, [])
  | current :: next, courseNumber =>
    if current.courseNumber = courseNumber then (true, next)
    else ((removeChain next courseNumber).1, current :: (removeChain next courseNumber).2)

/-- `remove`: the result flag and the table afterwards. -/
def remove (ht : HashTable) (courseNumber : Str) : Bool × HashTable :=
  let index := ht.hash courseNumber
  let r := removeChain (ht.table.getD index []) courseNumber
  (r.1, { ht with table := ht.table.set index r.2 })

end HashTable

/-- `toUpperCase`: `::toupper` on every character. -/
def toUpperCase (str : Str) : Str := str.map Char.toUpper

/-- The body of the loop of `removePrerequisiteFromAllCourses` for one course
of the snapshot: erase the number from its prerequisites and, when the list
shrank, remove the course from the table and insert the rewritten copy. -/
def cleanupStep (removedCourseNumber : Str) (ht : HashTable) (course : Course) : HashTable :=
  let prereqs := course.prerequisites.filter (fun p => p ≠ removedCourseNumber)
  if prereqs.length ≠ course.prerequisites.length then
    (ht.remove course.courseNumber).2.insert { course with prerequisites := prereqs }
  else ht

/-- `removePrerequisiteFromAllCourses`: for each course of the snapshot whose
prerequisite list shrinks when the number is erased, remove it and insert the
rewritten course. -/
def removePrerequisiteFromAllCourses (hashTable : HashTable) (removedCourseNumber : Str) :
    HashTable :=
  (hashTable.getAllCourses).foldl (cleanupStep removedCourseNumber) hashTable

/-- The characters of `" \t\r\n"`. -/
def isWs (c : Char) : Bool := c = ' ' || c = '\t' || c = '\r' || c = '\n'

/-- `trim`: the substring from the first to the last character that is not
one of `" \t\r\n"`; empty when there is none. -/
def trim (str : Str) : Str :=
  let fromFirst := str.dropWhile isWs
  match fromFirst with
  | [] => []
  | _ :: _ => fromFirst.rdropWhile isWs

/-- Repeated `getline(stream, token, delimiter)` until it fails: `token` holds
the characters extracted since the last delimiter. A delimiter ends a token
(possibly empty); at the end of the stream the pending characters are a token
only when there are some. -/
def getlines (delimiter : Char) : Str → Str → List Str
  | [], token => if token.isEmpty then [] else [token]
  | ch :: rest, token =>
    if ch = delimiter then token :: getlines delimiter rest []
    else getlines delimiter rest (token ++ [ch])

/-- `split`: every token read by `getline`, trimmed. -/
def split (str : Str) (delimiter : Char) : List Str :=
  (getlines delimiter str []).map trim

/-- The body of the reading loop of `loadCourseData` for a line that passed
both checks: the course built from its tokens. -/
def courseOfTokens (tokens : List Str) : Course :=
  { courseNumber := toUpperCase (tokens.getD 0 [])
    courseTitle := tokens.getD 1 []
    prerequisites := ((tokens.drop 2).filter (fun t => !t.isEmpty)).map toUpperCase }

/-- The reading loop of `loadCourseData` over the lines of the file: `none`
when a line that is not blank has fewer than two tokens (the early
`return false`), otherwise `tempCourses`, in file order. -/
def readCourses : List Str → Option (List Course)
  | [] => some []
  | line :: rest =>
    if (trim line).isEmpty then readCourses rest
    else
      let tokens := split line ','
      if tokens.length < 2 then none
      else (readCourses rest).map (fun tempCourses => courseOfTokens tokens :: tempCourses)

/-- The validation loops of `loadCourseData`: every prerequisite of every
temporary course is the number of some temporary course. -/
def prerequisitesExist (tempCourses : List Course) : Bool :=
  tempCourses.all (fun course =>
    course.prerequisites.all (fun prereq =>
      tempCourses.any (fun existingCourse => existingCourse.courseNumber = prereq)))

/-- The final loop of `loadCourseData`: insert every temporary course in turn. -/
def insertAll (hashTable : HashTable) (tempCourses : List Course) : HashTable :=
  tempCourses.foldl (fun ht course => ht.insert course) hashTable

/-- `loadCourseData`: `file` is the content of the named file, `none` when it
cannot be opened. Returns the result flag and the table afterwards. -/
def loadCourseData (file : Option Str) (hashTable : HashTable) : Bool × HashTable :=
  match file with
  | none => (false, hashTable)
  | some content =>
    match readCourses (getlines '\n' content []) with
    | none => (false, hashTable)
    | some tempCourses =>
      if prerequisitesExist tempCourses then (true, insertAll hashTable tempCourses)
      else (false, hashTable)

/-- The comparison `std::sort` is given in `printCourseList`:
`a.courseNumber < b.courseNumber`, the lexicographic order of `std::string`. -/
def courseBefore (a b : Course) : Prop := a.courseNumber < b.courseNumber

instance : DecidableRel courseBefore := fun a b => by
  unfold courseBefore; infer_instance

/-- The call of `std::sort` in `printCourseList`, as an insertion sort that
puts `a` ahead of `b` unless `b` compares less than `a`. -/
def sortCourses (courses : List Course) : List Course :=
  courses.insertionSort (fun a b => ¬ courseBefore b a)

/-- `printCourseList`: `none` for the "No courses loaded" error, otherwise the
printed lines, each a course number and a course title. -/
def printCourseList (hashTable : HashTable) : Option (List (Str × Str)) :=
  let courses := hashTable.getAllCourses
  if courses.isEmpty then none
  else some ((sortCourses courses).map (fun course => (course.courseNumber, course.courseTitle)))

/-- What `printCourseInformation` reports. -/
inductive CourseInformation where
  /-- "Course number cannot be empty". -/
  | emptyInput
  /-- "Course ... not found". -/
  | notFound
  /-- The number and title line and the prerequisites line of this course. -/
  | printed (course : Course)
  deriving DecidableEq, Repr

/-- `printCourseInformation`. -/
def printCourseInformation (hashTable : HashTable) (courseNumber : Str) : CourseInformation :=
  let trimmedCourse := trim courseNumber
  if trimmedCourse.isEmpty then CourseInformation.emptyInput
  else
    let searchNumber := toUpperCase trimmedCourse
    match hashTable.search searchNumber with
    | none => CourseInformation.notFound
    | some course => CourseInformation.printed course

/-- What `removeCourse` reports. -/
inductive RemoveOutcome where
  /-- "Course number cannot be empty". -/
  | emptyInput
  /-- "Course ... not found". -/
  | notFound
  /-- "Course removal cancelled". -/
  | cancelled
  /-- "Course ... removed successfully", then cleanup completed or skipped. -/
  | removed (cleanupConfirmed : Bool)
  /-- "Failed to remove course". -/
  | failed
  deriving DecidableEq, Repr

/-- The scan of `removeCourse` for the courses that list `searchNumber`. -/
def dependentCourses (allCourses : List Course) (searchNumber : Str) : List Str :=
  (allCourses.filter (fun c => c.prerequisites.any (fun prereq => prereq = searchNumber))).map
    (fun c => c.courseNumber)

/-- `removeCourse`: `courseNumber`, `confirmation` and `cleanupConfirm` are the
lines read at the three prompts (the second and third are read only when
their prompt is reached). -/
def removeCourse (hashTable : HashTable) (courseNumber confirmation cleanupConfirm : Str) :
    RemoveOutcome × HashTable :=
  let searchNumber := toUpperCase (trim courseNumber)
  if searchNumber.isEmpty then (RemoveOutcome.emptyInput, hashTable)
  else
    match hashTable.search searchNumber with
    | none => (RemoveOutcome.notFound, hashTable)
    | some _ =>
      let dependents := dependentCourses hashTable.getAllCourses searchNumber
      if !dependents.isEmpty && toUpperCase (trim confirmation) ≠ "YES".toList then
        (RemoveOutcome.cancelled, hashTable)
      else
        let r := hashTable.remove searchNumber
        if r.1 then
          let cleaned := removePrerequisiteFromAllCourses r.2 searchNumber
          if toUpperCase (trim cleanupConfirm) = "YES".toList then
            (RemoveOutcome.removed true, removePrerequisiteFromAllCourses cleaned searchNumber)
          else (RemoveOutcome.removed false, cleaned)
        else (RemoveOutcome.failed, r.2)

/-! ## The file as the loader reads it -/

/-- The lines of a file that the reading loop does not skip. -/
def nonBlankLines (content : Str) : List Str :=
  (getlines '\n' content []).filter (fun line => !(trim line).isEmpty)

/-- The identifier a line gives its course: its first token, in upper case. -/
def lineIdentifier (line : Str) : Str := toUpperCase ((split line ',').getD 0 [])

/-! ## Sample data -/

/-- A record with no prerequisites. -/
def mkCourse (number title : String) : Course :=
  { courseNumber := number.toList, courseTitle := title.toList, prerequisites := [] }

/-- A table of the default size holding one course, `CSCI100`. -/
def sampleStore : HashTable :=
  (HashTable.new HashTable.defaultSize).insert (mkCourse "CSCI100" "Introduction")

/-- A file whose second line has an identifier and no title. -/
def sampleShortLineFile : Str :=
  "CSCI200,Data Structures\nCSCI300\nCSCI350,Operating Systems,CSCI200\n".toList

/-- A file whose second course requires `CSCI100`, which no line defines. -/
def sampleDanglingFile : Str :=
  "CSCI200,Data Structures\nCSCI300,Algorithms,CSCI200,csci100\n".toList

/-- A valid file: three courses, a blank line, mixed case and padding. -/
def sampleValidFile : Str :=
  "csci100, Introduction\n\nCSCI200 ,Data Structures, csci100\nCSCI300,Algorithms,CSCI200,,CSCI100\n".toList

/-! ## Histories of the store -/

/-- A call of one of the two mutating methods of `HashTable`. -/
inductive StoreOp where
  | insert (course : Course)
  | remove (courseNumber : Str)
  deriving DecidableEq, Repr

/-- The table after one call. -/
def applyOp (ht : HashTable) : StoreOp → HashTable
  | StoreOp.insert course => ht.insert course
  | StoreOp.remove courseNumber => (ht.remove courseNumber).2

/-- The table after a sequence of calls, first call first. -/
def applyOps (ht : HashTable) (ops : List StoreOp) : HashTable :=
  ops.foldl applyOp ht

/-- Every course sits in the chain of the bucket its number hashes to. -/
def Placed (ht : HashTable) : Prop :=
  ∀ i : Nat, ∀ c ∈ ht.table.getD i [], ht.hash c.courseNumber = i

instance (ht : HashTable) : Decidable (Placed ht) :=
  decidable_of_iff
    (∀ i ∈ List.range ht.table.length, ∀ c ∈ ht.table.getD i [], ht.hash c.courseNumber = i)
    (by
      unfold Placed
      constructor
      · intro h i c hc
        by_cases hi : i < ht.table.length
        · exact h i (List.mem_range.mpr hi) c hc
        · simp [List.getD_eq_getElem?_getD, List.getElem?_eq_none (Nat.le_of_not_lt hi)] at hc
      · intro h i _ c hc
        exact h i c hc)

/-- The table after inserting `CSCI200`, `CSCI100` and `CSCI350`, in this order. -/
def sampleThree : HashTable :=
  (((HashTable.new HashTable.defaultSize).insert (mkCourse "CSCI200" "Data Structures")).insert
    (mkCourse "CSCI100" "Introduction")).insert (mkCourse "CSCI350" "Operating Systems")

/-- A string that neither starts nor ends with one of `" \t\r\n"`. -/
def Trimmed (s : Str) : Prop :=
  (∀ c, s.head? = some c → isWs c = false) ∧ (∀ c, s.getLast? = some c → isWs c = false)

/-- A file whose only line has an empty identifier field. -/
def sampleEmptyIdFile : Str := ",Orientation\n".toList

/-- A file with two lines for `CSCI100`. -/
def sampleDuplicateFile : Str := "CSCI100,Introduction\nCSCI100,Programming I\n".toList

/-! ## Interactive add -/

/-- What `addCourse` reports. -/
inductive AddOutcome where
  /-- "Course number cannot be empty". -/
  | emptyNumber
  /-- "Course ... already exists". -/
  | alreadyExists
  /-- "Course title cannot be empty". -/
  | emptyTitle
  /-- "Prerequisite ... does not exist in the course list", "Course not added". -/
  | missingPrerequisite (prereqNumber : Str)
  /-- "Course ... added successfully". -/
  | added
  deriving DecidableEq, Repr

/-- The loop of `addCourse` over the tokens of the prerequisites line: a token
that is `NONE` or empty in trimmed upper case is skipped; the first other
token that `search` does not find ends the loop with an error naming it;
otherwise the tokens are collected in order. -/
def validatePrerequisites (hashTable : HashTable) : List Str → Except Str (List Str)
  | [] => Except.ok []
  | prereq :: rest =>
    let prereqNumber := toUpperCase (trim prereq)
    if prereqNumber = "NONE".toList || prereqNumber.isEmpty then
      validatePrerequisites hashTable rest
    else if (hashTable.search prereqNumber).isNone then Except.error prereqNumber
    else
      match validatePrerequisites hashTable rest with
      | Except.error missing => Except.error missing
      | Except.ok prerequisites => Except.ok (prereqNumber :: prerequisites)

/-- `addCourse`: `input`, `courseTitle` and `prereqLine` are the lines read at
the three prompts (a later line is read only when its prompt is reached). -/
def addCourse (hashTable : HashTable) (input courseTitle prereqLine : Str) :
    AddOutcome × HashTable :=
  let courseNumber := toUpperCase (trim input)
  if courseNumber.isEmpty then (AddOutcome.emptyNumber, hashTable)
  else if (hashTable.search courseNumber).isSome then (AddOutcome.alreadyExists, hashTable)
  else if courseTitle.isEmpty then (AddOutcome.emptyTitle, hashTable)
  else
    let prereqInput := toUpperCase (trim prereqLine)
    if !prereqInput.isEmpty && prereqInput ≠ "NONE".toList then
      match validatePrerequisites hashTable (split prereqLine ',') with
      | Except.error missing => (AddOutcome.missingPrerequisite missing, hashTable)
      | Except.ok prerequisites =>
        (AddOutcome.added,
          hashTable.insert
            { courseNumber := courseNumber, courseTitle := courseTitle,
              prerequisites := prerequisites })
    else
      (AddOutcome.added,
        hashTable.insert
          { courseNumber := courseNumber, courseTitle := courseTitle, prerequisites := [] })

/-- A course with the number erased from its prerequisite list, the other
prerequisites in their order: what the cleanup loop computes for a course. -/
def withoutPrerequisite (removedCourseNumber : Str) (course : Course) : Course :=
  { course with
    prerequisites := course.prerequisites.filter (fun p => p ≠ removedCourseNumber) }

/-- No two stored records carry the same number. -/
def UniqueNumbers (ht : HashTable) : Prop :=
  (ht.getAllCourses.map Course.courseNumber).Nodup

instance (ht : HashTable) : Decidable (UniqueNumbers ht) := by
  unfold UniqueNumbers; infer_instance

/-- The table after loading a two-line catalog: `CSCI200` requires `CSCI100`. -/
def sampleCatalog : HashTable :=
  (loadCourseData (some "CSCI100,Introduction\nCSCI200,Data Structures,CSCI100\n".toList)
    (HashTable.new HashTable.defaultSize)).2

/-- A valid file with two lines for `CSCI200`, both requiring `CSCI100`. -/
def sampleTwoDependentsFile : Str :=
  "CSCI200,Data Structures,CSCI100\nCSCI200,Data Structures,CSCI100\nCSCI100,Introduction\n".toList

/-- A valid file with two lines for `CSCI200`; only the older requires `CSCI100`. -/
def sampleShadowedFile : Str :=
  "CSCI200,Old Title,CSCI100\nCSCI200,New Title\nCSCI100,Introduction\n".toList

/-- A file whose only line has an identifier field and an empty title field. -/
def sampleEmptyTitleFile : Str := "CSCI100,,\n".toList

/-! ## Fields of a line, as the specification counts them -/

/-- The records with the number in the chain of the number's bucket, head
first: the nodes `search` and `remove` can reach for that number. -/
def recordsOf (ht : HashTable) (courseNumber : Str) : List Course :=
  (ht.table.getD (ht.hash courseNumber) []).filter (fun c => c.courseNumber = courseNumber)

/-- The effect of one call on the list of records that are stored, most
recently inserted first: `insert` puts the record in front, `remove` takes
out the first record with the number. -/
def liveStep (live : List Course) : StoreOp → List Course
  | StoreOp.insert course => course :: live
  | StoreOp.remove courseNumber => live.eraseP (fun c => c.courseNumber = courseNumber)

/-- The records inserted and not removed after a sequence of calls on the
empty table, most recently inserted first. -/
def liveRecords (ops : List StoreOp) : List Course :=
  ops.foldl liveStep []

/-- Every prerequisite of every stored record is the number of a stored record. -/
def PrerequisitesResolved (ht : HashTable) : Prop :=
  ∀ c ∈ ht.getAllCourses, ∀ p ∈ c.prerequisites, ∃ d ∈ ht.getAllCourses, d.courseNumber = p

instance (ht : HashTable) : Decidable (PrerequisitesResolved ht) := by
  unfold PrerequisitesResolved; infer_instance

/-- A table after four calls: insert, insert under the same number, remove,
insert of another number. -/
def sampleOps : List StoreOp :=
  [StoreOp.insert (mkCourse "CSCI100" "Introduction"),
   StoreOp.insert (mkCourse "CSCI100" "Programming I"),
   StoreOp.remove "CSCI100".toList,
   StoreOp.insert (mkCourse "CSCI200" "Data Structures")]

/-- What one step of the cleanup loop does to the records under the number of
its course: nothing when erasing `x` leaves the prerequisites of the course as
they are; otherwise the first record is replaced by the rewritten course. -/
def cleanupOnRecords (x : Str) (records : List Course) (course : Course) : List Course :=
  if course.prerequisites.filter (fun p => p ≠ x) = course.prerequisites then records
  else withoutPrerequisite x course :: records.tail

/-- The course is rewritten by the cleanup of `x`: erasing `x` changes its
prerequisite list. -/
def rewrittenBy (x : Str) (course : Course) : Bool :=
  decide (course.prerequisites.filter (fun p => p ≠ x) ≠ course.prerequisites)

/-! ## Lemmas: the hash table -/

namespace HashTable

theorem insert_eq (ht : HashTable) (course : Course) :
    ht.insert course =
      HashTable.mk (ht.table.set (ht.hash course.courseNumber)
        (course :: ht.table.getD (ht.hash course.courseNumber) [])) ht.tableSize := by
  unfold insert
  simp only
  split <;> rename_i hb <;> rw [hb]

theorem hash_lt (ht : HashTable) (h : ht.WF) (key : Str) : ht.hash key < ht.table.length := by
  unfold hash
  rw [h.1]
  exact Nat.mod_lt _ h.2

theorem insert_tableSize (ht : HashTable) (course : Course) :
    (ht.insert course).tableSize = ht.tableSize := by
  rw [insert_eq]

theorem remove_tableSize (ht : HashTable) (key : Str) :
    (ht.remove key).2.tableSize = ht.tableSize := rfl

theorem hash_congr (a b : HashTable) (h : a.tableSize = b.tableSize) (key : Str) :
    a.hash key = b.hash key := by
  unfold hash
  rw [h]

theorem new_WF (size : Nat) (h : 0 < size) : (new size).WF := by
  simp [WF, new, h]

theorem insert_WF (ht : HashTable) (h : ht.WF) (course : Course) : (ht.insert course).WF := by
  rw [insert_eq]
  simpa [WF] using h

theorem remove_WF (ht : HashTable) (h : ht.WF) (key : Str) : (ht.remove key).2.WF := by
  simpa [WF, remove] using h

theorem getAllCourses_eq_flatten (ht : HashTable) (h : ht.WF) :
    ht.getAllCourses = ht.table.flatten := by
  unfold getAllCourses
  rw [List.flatMap_def, ← h.1]
  congr 1
  apply List.ext_getElem
  · simp
  · intro i h1 h2
    simp [List.getD_eq_getElem?_getD, List.getElem?_eq_getElem h2]

theorem flatten_set_cons {α : Type} (l : List (List α)) (i : Nat) (h : i < l.length) (c : α) :
    (l.set i (c :: l.getD i [])).flatten.Perm (c :: l.flatten) := by
  induction l generalizing i with
  | nil => simp at h
  | cons b l ih =>
    cases i with
    | zero => simp
    | succ i =>
      have hi : i < l.length := by simpa using h
      simp only [List.set_cons_succ, List.flatten_cons, List.getD_cons_succ]
      exact ((ih i hi).append_left b).trans List.perm_middle

theorem getAllCourses_insert (ht : HashTable) (h : ht.WF) (course : Course) :
    (ht.insert course).getAllCourses.Perm (course :: ht.getAllCourses) := by
  rw [getAllCourses_eq_flatten _ (insert_WF ht h course), getAllCourses_eq_flatten _ h, insert_eq]
  exact flatten_set_cons _ _ (hash_lt ht h _) _

theorem search_insert (ht : HashTable) (h : ht.WF) (course : Course) (key : Str) :
    (ht.insert course).search key =
      if course.courseNumber = key then some course else ht.search key := by
  have hlt := hash_lt ht h course.courseNumber
  have hk : (ht.insert course).hash key = ht.hash key :=
    hash_congr _ _ (insert_tableSize ht course) key
  unfold search
  rw [hk, insert_eq]
  by_cases hc : course.courseNumber = key
  · subst hc
    simp [List.getD_eq_getElem?_getD, List.getElem?_set, hlt, searchChain]
  · by_cases hh : ht.hash course.courseNumber = ht.hash key
    · rw [← hh]
      simp [List.getD_eq_getElem?_getD, List.getElem?_set, hlt, searchChain, hc]
    · simp [List.getD_eq_getElem?_getD, List.getElem?_set, hh, hc]

end HashTable

theorem insertAll_WF (ht : HashTable) (h : ht.WF) (courses : List Course) :
    (insertAll ht courses).WF := by
  induction courses generalizing ht with
  | nil => exact h
  | cons c cs ih => exact ih _ (HashTable.insert_WF ht h c)

theorem getAllCourses_insertAll (ht : HashTable) (h : ht.WF) (courses : List Course) :
    (insertAll ht courses).getAllCourses.Perm (courses.reverse ++ ht.getAllCourses) := by
  induction courses generalizing ht with
  | nil => simp [insertAll]
  | cons c cs ih =>
    have h1 := ih _ (HashTable.insert_WF ht h c)
    have h2 := HashTable.getAllCourses_insert ht h c
    simp only [List.reverse_cons, List.append_assoc, List.singleton_append]
    exact h1.trans (h2.append_left _)

theorem getAllCourses_new (size : Nat) : (HashTable.new size).getAllCourses = [] := by
  simp [HashTable.getAllCourses, HashTable.new, List.getD_eq_getElem?_getD]

/-! ## Lemmas: the reading and validation loops -/

theorem readCourses_none_of_short (lines : List Str)
    (h : ∃ line ∈ lines, (trim line).isEmpty = false ∧ (split line ',').length < 2) :
    readCourses lines = none := by
  induction lines with
  | nil => simp at h
  | cons l ls ih =>
    unfold readCourses
    by_cases hb : (trim l).isEmpty = true
    · simp only [hb, if_true]
      apply ih
      obtain ⟨line, hm, hne, hs⟩ := h
      rcases List.mem_cons.mp hm with rfl | hm
      · rw [hb] at hne; cases hne
      · exact ⟨line, hm, hne, hs⟩
    · simp only [hb]
      by_cases hs : (split l ',').length < 2
      · simp [hs]
      · obtain ⟨line, hm, hne, hs2⟩ := h
        rcases List.mem_cons.mp hm with rfl | hm
        · exact absurd hs2 hs
        · simp [hs, ih ⟨line, hm, hne, hs2⟩]

theorem readCourses_some (lines : List Str) (temp : List Course)
    (h : readCourses lines = some temp) :
    temp = (lines.filter (fun line => !(trim line).isEmpty)).map
      (fun line => courseOfTokens (split line ',')) := by
  induction lines generalizing temp with
  | nil => simp [readCourses] at h; simp [h]
  | cons l ls ih =>
    unfold readCourses at h
    by_cases hb : (trim l).isEmpty = true
    · simp only [hb, if_true] at h
      simp [hb, ih temp h]
    · simp only [hb] at h
      by_cases hs : (split l ',').length < 2
      · simp [hs] at h
      · simp only [hs, if_false, Bool.false_eq_true] at h
        cases hr : readCourses ls with
        | none => simp [hr] at h
        | some t =>
          simp [hr] at h
          simp [hb, ← h, ih t hr]

theorem readCourses_of_wellFormed (lines : List Str)
    (h : ∀ line ∈ lines, (trim line).isEmpty = false → 2 ≤ (split line ',').length) :
    readCourses lines = some ((lines.filter (fun line => !(trim line).isEmpty)).map
      (fun line => courseOfTokens (split line ','))) := by
  induction lines with
  | nil => simp [readCourses]
  | cons l ls ih =>
    have ih2 := ih (fun line hm => h line (List.mem_cons_of_mem _ hm))
    unfold readCourses
    by_cases hb : (trim l).isEmpty = true
    · simp [hb, ih2]
    · have h2 := h l (List.mem_cons_self _ _) (by simpa using hb)
      simp [hb, ih2, Nat.not_lt.mpr h2]

theorem tempCourses_eq (content : Str) (temp : List Course)
    (h : readCourses (getlines '\n' content []) = some temp) :
    temp = (nonBlankLines content).map (fun line => courseOfTokens (split line ',')) :=
  readCourses_some _ _ h

theorem mem_nonBlankLines (content line : Str) :
    line ∈ nonBlankLines content ↔
      line ∈ getlines '\n' content [] ∧ (trim line).isEmpty = false := by
  simp [nonBlankLines, List.mem_filter]

theorem prerequisitesExist_iff (temp : List Course) :
    prerequisitesExist temp = true ↔
      ∀ course ∈ temp, ∀ prereq ∈ course.prerequisites,
        ∃ existing ∈ temp, existing.courseNumber = prereq := by
  simp [prerequisitesExist, List.all_eq_true, List.any_eq_true]

theorem mem_prerequisites_courseOfTokens (tokens : List Str) (prereq : Str) :
    prereq ∈ (courseOfTokens tokens).prerequisites ↔
      ∃ token ∈ tokens.drop 2, token.isEmpty = false ∧ toUpperCase token = prereq := by
  simp [courseOfTokens, List.mem_map, List.mem_filter, and_assoc]

theorem courseNumber_courseOfTokens (line : Str) :
    (courseOfTokens (split line ',')).courseNumber = lineIdentifier line := rfl

theorem load_of_read_none (hashTable : HashTable) (content : Str)
    (h : readCourses (getlines '\n' content []) = none) :
    loadCourseData (some content) hashTable = (false, hashTable) := by
  simp [loadCourseData, h]

theorem load_of_read_some (hashTable : HashTable) (content : Str) (temp : List Course)
    (h : readCourses (getlines '\n' content []) = some temp) :
    loadCourseData (some content) hashTable =
      if prerequisitesExist temp then (true, insertAll hashTable temp)
      else (false, hashTable) := by
  simp [loadCourseData, h]

/-! ## Claims about the loader -/

/-- C1: for every store and every file content in which some line that is not
blank splits on `','` into fewer than two tokens, `loadCourseData` returns
`false` and the table is exactly what it was, whatever the other lines are. -/
theorem load_short_line_fails (hashTable : HashTable) (content : Str)
    (h : ∃ line ∈ nonBlankLines content, (split line ',').length < 2) :
    loadCourseData (some content) hashTable = (false, hashTable) := by
  obtain ⟨line, hm, hs⟩ := h
  rw [mem_nonBlankLines] at hm
  have hr : readCourses (getlines '\n' content []) = none :=
    readCourses_none_of_short _ ⟨line, hm.1, hm.2, hs⟩
  simp [loadCourseData, hr]

/-- C2: for every store and every file content in which some course lists a
prerequisite that, in upper case, is not the identifier of any line of the
file, `loadCourseData` returns `false` and the table is unchanged; the store
is universally quantified, so it may well hold that identifier. -/
theorem load_unresolved_prerequisite_fails (hashTable : HashTable) (content : Str)
    (h : ∃ line ∈ nonBlankLines content, ∃ token ∈ (split line ',').drop 2,
      token.isEmpty = false ∧
        ∀ other ∈ nonBlankLines content, lineIdentifier other ≠ toUpperCase token) :
    loadCourseData (some content) hashTable = (false, hashTable) := by
  obtain ⟨line, hm, token, ht, hne, hno⟩ := h
  cases hr : readCourses (getlines '\n' content []) with
  | none => exact load_of_read_none _ _ hr
  | some temp =>
    rw [load_of_read_some _ _ _ hr]
    have htemp := tempCourses_eq content temp hr
    have hp : prerequisitesExist temp = false := by
      cases hpe : prerequisitesExist temp with
      | false => rfl
      | true =>
        exfalso
        rw [prerequisitesExist_iff] at hpe
        have hc : courseOfTokens (split line ',') ∈ temp := by
          rw [htemp]
          exact List.mem_map_of_mem _ hm
        obtain ⟨existing, he, heq⟩ := hpe _ hc (toUpperCase token)
          ((mem_prerequisites_courseOfTokens _ _).mpr ⟨token, ht, hne, rfl⟩)
        rw [htemp, List.mem_map] at he
        obtain ⟨other, ho, rfl⟩ := he
        exact hno other ho heq
    simp [hp]

/-- C3: for a file whose `N` non-blank lines each give at least two tokens,
whose identifiers are pairwise distinct in upper case and whose non-empty
prerequisite tokens each name the identifier of some line, `loadCourseData`
on an empty table returns `true`, and `getAllCourses` then holds exactly `N`
records: the records of the lines, one per line, with distinct identifiers. -/
theorem load_valid_file_succeeds (size : Nat) (hsize : 0 < size) (content : Str)
    (hfields : ∀ line ∈ nonBlankLines content, 2 ≤ (split line ',').length)
    (hdistinct : ((nonBlankLines content).map lineIdentifier).Nodup)
    (hprereq : ∀ line ∈ nonBlankLines content, ∀ token ∈ (split line ',').drop 2,
      token.isEmpty = false →
        ∃ other ∈ nonBlankLines content, lineIdentifier other = toUpperCase token) :
    (loadCourseData (some content) (HashTable.new size)).1 = true ∧
    (loadCourseData (some content) (HashTable.new size)).2.getAllCourses.length =
      (nonBlankLines content).length ∧
    (loadCourseData (some content) (HashTable.new size)).2.getAllCourses.Perm
      ((nonBlankLines content).map (fun line => courseOfTokens (split line ','))) ∧
    ((loadCourseData (some content) (HashTable.new size)).2.getAllCourses.map
      Course.courseNumber).Nodup := by
  have hr := readCourses_of_wellFormed (getlines '\n' content []) (fun line hm hb =>
    hfields line ((mem_nonBlankLines _ _).mpr ⟨hm, hb⟩))
  have hp : prerequisitesExist ((nonBlankLines content).map
      (fun line => courseOfTokens (split line ','))) = true := by
    rw [prerequisitesExist_iff]
    intro course hc prereq hpre
    rw [List.mem_map] at hc
    obtain ⟨line, hl, rfl⟩ := hc
    obtain ⟨token, ht, hne, rfl⟩ := (mem_prerequisites_courseOfTokens _ _).mp hpre
    obtain ⟨other, ho, heq⟩ := hprereq line hl token ht hne
    exact ⟨_, List.mem_map_of_mem _ ho, heq⟩
  have hload : loadCourseData (some content) (HashTable.new size) =
      (true, insertAll (HashTable.new size) ((nonBlankLines content).map
        (fun line => courseOfTokens (split line ',')))) := by
    rw [load_of_read_some _ _ _ hr]
    simp only [nonBlankLines] at hp ⊢
    simp [hp]
  have hperm := getAllCourses_insertAll (HashTable.new size) (HashTable.new_WF size hsize)
    ((nonBlankLines content).map (fun line => courseOfTokens (split line ',')))
  rw [getAllCourses_new, List.append_nil] at hperm
  have hperm2 := hperm.trans (List.reverse_perm _)
  rw [hload]
  refine ⟨rfl, ?_, hperm2, ?_⟩
  · simpa using hperm2.length_eq
  · have h3 := (hperm2.map Course.courseNumber).nodup_iff
    rw [h3, List.map_map]
    exact hdistinct

/-- Witness for C1: the short line sits between two well-formed lines and the
store is not empty. -/
theorem load_short_line_fails_witness :
    (∃ line ∈ nonBlankLines sampleShortLineFile, (split line ',').length < 2) ∧
    loadCourseData (some sampleShortLineFile) sampleStore = (false, sampleStore) :=
  ⟨⟨"CSCI300".toList, by decide, by decide⟩,
    load_short_line_fails sampleStore sampleShortLineFile
      ⟨"CSCI300".toList, by decide, by decide⟩⟩

/-- Witness for C2: the missing prerequisite `CSCI100` is in the live store. -/
theorem load_unresolved_prerequisite_fails_witness :
    sampleStore.search "CSCI100".toList = some (mkCourse "CSCI100" "Introduction") ∧
    loadCourseData (some sampleDanglingFile) sampleStore = (false, sampleStore) :=
  ⟨by decide,
    load_unresolved_prerequisite_fails sampleStore sampleDanglingFile
      ⟨"CSCI300,Algorithms,CSCI200,csci100".toList, by decide, "csci100".toList,
        by decide, by decide, by decide⟩⟩

/-- Witness for C3: three lines, three records. -/
theorem load_valid_file_succeeds_witness :
    (loadCourseData (some sampleValidFile) (HashTable.new 179)).1 = true ∧
    (loadCourseData (some sampleValidFile) (HashTable.new 179)).2.getAllCourses.length = 3 :=
  ⟨(load_valid_file_succeeds 179 (by decide) sampleValidFile (by decide) (by decide)
      (by decide)).1,
    (load_valid_file_succeeds 179 (by decide) sampleValidFile (by decide) (by decide)
      (by decide)).2.1⟩

/-! ## Lemmas: chains -/

namespace HashTable

theorem searchChain_none_iff (chain : List Course) (key : Str) :
    searchChain chain key = none ↔ ∀ c ∈ chain, c.courseNumber ≠ key := by
  induction chain with
  | nil => simp [searchChain]
  | cons c cs ih =>
    by_cases hc : c.courseNumber = key <;> simp [searchChain, hc, ih]

theorem searchChain_some (chain : List Course) (key : Str) (c : Course)
    (h : searchChain chain key = some c) : c.courseNumber = key ∧ c ∈ chain := by
  induction chain with
  | nil => simp [searchChain] at h
  | cons d ds ih =>
    by_cases hd : d.courseNumber = key
    · simp [searchChain, hd] at h
      subst h
      exact ⟨hd, List.mem_cons_self _ _⟩
    · simp [searchChain, hd] at h
      exact ⟨(ih h).1, List.mem_cons_of_mem _ (ih h).2⟩

theorem removeChain_fst (chain : List Course) (key : Str) :
    (removeChain chain key).1 = (searchChain chain key).isSome := by
  induction chain with
  | nil => rfl
  | cons c cs ih =>
    by_cases hc : c.courseNumber = key <;> simp [removeChain, searchChain, hc, ih]

theorem removeChain_of_none (chain : List Course) (key : Str)
    (h : searchChain chain key = none) : (removeChain chain key).2 = chain := by
  induction chain with
  | nil => rfl
  | cons c cs ih =>
    by_cases hc : c.courseNumber = key
    · simp [searchChain, hc] at h
    · simp [searchChain, hc] at h
      simp [removeChain, hc, ih h]

theorem removeChain_perm (chain : List Course) (key : Str) (c : Course)
    (h : searchChain chain key = some c) :
    chain.Perm (c :: (removeChain chain key).2) := by
  induction chain with
  | nil => simp [searchChain] at h
  | cons d ds ih =>
    by_cases hd : d.courseNumber = key
    · simp [searchChain, hd] at h
      subst h
      simp [removeChain, hd]
    · simp [searchChain, hd] at h
      simp only [removeChain, hd, if_false]
      exact ((ih h).cons d).trans (List.Perm.swap _ _ _)

theorem getD_lt {α : Type} (l : List α) (i : Nat) (d : α) (h : i < l.length) :
    l.getD i d = l[i] := by
  simp [List.getD_eq_getElem?_getD, List.getElem?_eq_getElem h]

theorem flatten_set_perm {α : Type} (l : List (List α)) (i : Nat) (h : i < l.length) (c : α)
    (b : List α) (hb : (l.getD i []).Perm (c :: b)) :
    l.flatten.Perm (c :: (l.set i b).flatten) := by
  induction l generalizing i with
  | nil => simp at h
  | cons a l ih =>
    cases i with
    | zero =>
      simp only [List.getD_cons_zero] at hb
      simp only [List.set_cons_zero, List.flatten_cons]
      exact hb.append_right _
    | succ i =>
      have hi : i < l.length := by simpa using h
      simp only [List.getD_cons_succ] at hb
      simp only [List.set_cons_succ, List.flatten_cons]
      exact ((ih i hi hb).append_left a).trans List.perm_middle

theorem remove_fst (ht : HashTable) (key : Str) :
    (ht.remove key).1 = (ht.search key).isSome := by
  simp [remove, search, removeChain_fst]

theorem set_getD_self {α : Type} (l : List α) (i : Nat) (d : α) (h : i < l.length) :
    l.set i (l.getD i d) = l := by
  rw [getD_lt l i d h]
  apply List.ext_getElem
  · simp
  · intro n h1 h2
    by_cases hn : i = n
    · subst hn; simp
    · simp [List.getElem_set, hn]

theorem remove_of_search_none (ht : HashTable) (h : ht.WF) (key : Str)
    (hs : ht.search key = none) : ht.remove key = (false, ht) := by
  have h1 : (ht.remove key).1 = false := by rw [remove_fst, hs]; rfl
  have h2 : (ht.remove key).2 = ht := by
    unfold remove
    unfold search at hs
    simp only [removeChain_of_none _ _ hs, set_getD_self _ _ _ (hash_lt ht h key)]
  exact Prod.ext h1 h2

theorem getAllCourses_remove (ht : HashTable) (h : ht.WF) (key : Str) (c : Course)
    (hs : ht.search key = some c) :
    ht.getAllCourses.Perm (c :: (ht.remove key).2.getAllCourses) := by
  rw [getAllCourses_eq_flatten _ (remove_WF ht h key), getAllCourses_eq_flatten _ h]
  exact flatten_set_perm _ _ (hash_lt ht h key) _ _ (removeChain_perm _ _ _ hs)

theorem mem_getAllCourses (ht : HashTable) (h : ht.WF) (c : Course) :
    c ∈ ht.getAllCourses ↔ ∃ i, c ∈ ht.table.getD i [] := by
  rw [getAllCourses_eq_flatten _ h, List.mem_flatten]
  constructor
  · rintro ⟨b, hb, hc⟩
    obtain ⟨i, hi, rfl⟩ := List.getElem_of_mem hb
    exact ⟨i, by rw [getD_lt _ _ _ hi]; exact hc⟩
  · rintro ⟨i, hc⟩
    by_cases hi : i < ht.table.length
    · rw [getD_lt _ _ _ hi] at hc
      exact ⟨_, List.getElem_mem hi, hc⟩
    · simp [List.getD_eq_getElem?_getD, List.getElem?_eq_none (Nat.le_of_not_lt hi)] at hc

theorem search_mem (ht : HashTable) (h : ht.WF) (key : Str) (c : Course)
    (hs : ht.search key = some c) : c.courseNumber = key ∧ c ∈ ht.getAllCourses := by
  have := searchChain_some _ _ _ hs
  exact ⟨this.1, (mem_getAllCourses ht h c).mpr ⟨_, this.2⟩⟩

theorem search_none_of_not_stored (ht : HashTable) (h : ht.WF) (key : Str)
    (hno : ∀ c ∈ ht.getAllCourses, c.courseNumber ≠ key) : ht.search key = none := by
  cases hs : ht.search key with
  | none => rfl
  | some c => exact absurd (search_mem ht h key c hs).1 (hno c (search_mem ht h key c hs).2)

theorem mem_getAllCourses_remove (ht : HashTable) (h : ht.WF) (key : Str) (c : Course)
    (hc : c ∈ (ht.remove key).2.getAllCourses) : c ∈ ht.getAllCourses := by
  cases hs : ht.search key with
  | none => rw [remove_of_search_none ht h key hs] at hc; exact hc
  | some d => exact (getAllCourses_remove ht h key d hs).mem_iff.mpr (List.mem_cons_of_mem _ hc)

end HashTable

/-! ## Lemmas: placement and counting -/

namespace HashTable

theorem placed_new (size : Nat) : Placed (new size) := by
  intro i c hc
  simp [new, List.getD_eq_getElem?_getD, List.getElem?_replicate] at hc
  split at hc <;> simp at hc

theorem placed_insert (ht : HashTable) (h : ht.WF) (hp : Placed ht) (course : Course) :
    Placed (ht.insert course) := by
  intro i c hc
  rw [hash_congr _ _ (insert_tableSize ht course)]
  rw [insert_eq] at hc
  simp only [List.getD_eq_getElem?_getD, List.getElem?_set] at hc
  by_cases hi : ht.hash course.courseNumber = i
  · simp only [hi, if_true] at hc
    subst hi
    simp only [hash_lt ht h, if_true, Option.getD_some, List.mem_cons] at hc
    rcases hc with rfl | hc
    · rfl
    · exact hp _ c (by simpa [List.getD_eq_getElem?_getD] using hc)
  · simp only [hi, if_false] at hc
    exact hp i c (by simpa [List.getD_eq_getElem?_getD] using hc)

theorem mem_removeChain (chain : List Course) (key : Str) (c : Course)
    (hc : c ∈ (removeChain chain key).2) : c ∈ chain := by
  cases hs : searchChain chain key with
  | none => rw [removeChain_of_none _ _ hs] at hc; exact hc
  | some d => exact (removeChain_perm _ _ _ hs).mem_iff.mpr (List.mem_cons_of_mem _ hc)

theorem placed_remove (ht : HashTable) (h : ht.WF) (hp : Placed ht) (key : Str) :
    Placed (ht.remove key).2 := by
  intro i c hc
  rw [hash_congr _ _ (remove_tableSize ht key)]
  simp only [remove, List.getD_eq_getElem?_getD, List.getElem?_set] at hc
  by_cases hi : ht.hash key = i
  · simp only [hi, if_true] at hc
    subst hi
    simp only [hash_lt ht h, if_true, Option.getD_some] at hc
    exact hp _ c (by simpa [List.getD_eq_getElem?_getD] using mem_removeChain _ _ _ hc)
  · simp only [hi, if_false] at hc
    exact hp i c (by simpa [List.getD_eq_getElem?_getD] using hc)

theorem not_stored_of_search_none (ht : HashTable) (h : ht.WF) (hp : Placed ht) (key : Str)
    (hs : ht.search key = none) : ∀ c ∈ ht.getAllCourses, c.courseNumber ≠ key := by
  intro c hc hk
  obtain ⟨i, hi⟩ := (mem_getAllCourses ht h c).mp hc
  have hpi := hp i c hi
  rw [hk] at hpi
  subst hpi
  exact (searchChain_none_iff _ _).mp hs c hi hk

end HashTable

theorem applyOp_WF (ht : HashTable) (h : ht.WF) (op : StoreOp) : (applyOp ht op).WF := by
  cases op with
  | insert c => exact HashTable.insert_WF ht h c
  | remove k => exact HashTable.remove_WF ht h k

theorem applyOps_WF (ht : HashTable) (h : ht.WF) (ops : List StoreOp) :
    (applyOps ht ops).WF := by
  induction ops generalizing ht with
  | nil => exact h
  | cons op ops ih => exact ih _ (applyOp_WF ht h op)

/-- C5: for every table and record `r`, right after `insert(r)` the call
`search(r.courseNumber)` returns `r`, whatever the table held before. -/
theorem search_after_insert (ht : HashTable) (h : ht.WF) (r : Course) :
    (ht.insert r).search r.courseNumber = some r := by
  rw [HashTable.search_insert ht h r]
  simp

set_option maxRecDepth 20000 in
/-- Witness for C5: the number is already stored, with another title. -/
theorem search_after_insert_witness :
    sampleStore.search "CSCI100".toList = some (mkCourse "CSCI100" "Introduction") ∧
    (sampleStore.insert (mkCourse "CSCI100" "Programming I")).search "CSCI100".toList =
      some (mkCourse "CSCI100" "Programming I") :=
  ⟨by decide, search_after_insert sampleStore (by decide) (mkCourse "CSCI100" "Programming I")⟩

theorem cleanupStep_WF (removed : Str) (ht : HashTable) (h : ht.WF) (course : Course) :
    (cleanupStep removed ht course).WF := by
  unfold cleanupStep
  simp only
  split
  · exact HashTable.insert_WF _ (HashTable.remove_WF ht h _) _
  · exact h

theorem removeCourse_removed (ht : HashTable) (input confirmation cleanupConfirm : Str)
    (cleaned : Bool)
    (h : (removeCourse ht input confirmation cleanupConfirm).1 = RemoveOutcome.removed cleaned) :
    (toUpperCase (trim input)).isEmpty = false ∧
    (ht.remove (toUpperCase (trim input))).1 = true ∧
    (removeCourse ht input confirmation cleanupConfirm).2 =
      if cleaned then
        removePrerequisiteFromAllCourses (removePrerequisiteFromAllCourses
          (ht.remove (toUpperCase (trim input))).2 (toUpperCase (trim input)))
          (toUpperCase (trim input))
      else removePrerequisiteFromAllCourses (ht.remove (toUpperCase (trim input))).2
        (toUpperCase (trim input)) := by
  unfold removeCourse at h ⊢
  simp only at h ⊢
  by_cases hne : (toUpperCase (trim input)).isEmpty = true
  · simp [hne] at h
  · simp only [hne, if_false, Bool.false_eq_true] at h ⊢
    cases hs : ht.search (toUpperCase (trim input)) with
    | none => simp [hs] at h
    | some c =>
      simp only [hs] at h ⊢
      split at h
      · simp at h
      · rename_i hcancel
        simp only [hcancel, if_false, Bool.false_eq_true]
        by_cases hr : (ht.remove (toUpperCase (trim input))).1 = true
        · simp only [hr, if_true] at h ⊢
          by_cases hyes : toUpperCase (trim cleanupConfirm) = "YES".toList
          · simp only [hyes, if_true, RemoveOutcome.removed.injEq] at h ⊢
            subst h
            simp
          · simp only [hyes, if_false, RemoveOutcome.removed.injEq] at h ⊢
            subst h
            simp
        · simp [hr] at h

theorem courseOrder_total (a b : Course) : ¬ courseBefore b a ∨ ¬ courseBefore a b := by
  unfold courseBefore
  rcases lt_or_ge a.courseNumber b.courseNumber with hlt | hge
  · exact Or.inl (not_lt.mpr hlt.le)
  · exact Or.inr (not_lt.mpr hge)

theorem courseOrder_trans (a b c : Course) (hab : ¬ courseBefore b a)
    (hbc : ¬ courseBefore c b) : ¬ courseBefore c a := by
  unfold courseBefore at *
  rw [not_lt] at *
  exact le_trans hab hbc

theorem sortCourses_perm (courses : List Course) : (sortCourses courses).Perm courses :=
  List.perm_insertionSort _ courses

theorem sortCourses_sorted (courses : List Course) :
    (sortCourses courses).Pairwise (fun a b => ¬ courseBefore b a) := by
  haveI : IsTotal Course (fun a b => ¬ courseBefore b a) := ⟨courseOrder_total⟩
  haveI : IsTrans Course (fun a b => ¬ courseBefore b a) := ⟨courseOrder_trans⟩
  exact List.sorted_insertionSort _ courses

/-- C10: for a table that is not empty `printCourseList` prints a permutation
of the stored records (the number and title of each, once) in non-decreasing
lexicographic order of the numbers: no line is followed by a line whose
number compares less. -/
theorem printCourseList_sorted_permutation (ht : HashTable) (h : ht.getAllCourses ≠ []) :
    ∃ out, printCourseList ht = some out ∧
      out.Perm (ht.getAllCourses.map (fun c => (c.courseNumber, c.courseTitle))) ∧
      out.Pairwise (fun a b => ¬ b.1 < a.1) := by
  refine ⟨(sortCourses ht.getAllCourses).map (fun c => (c.courseNumber, c.courseTitle)),
    ?_, (sortCourses_perm _).map _, ?_⟩
  · simp [printCourseList, h]
  · rw [List.pairwise_map]
    exact sortCourses_sorted _

set_option maxRecDepth 100000 in
/-- Witness for C10: the store holding `CSCI200`, `CSCI100`, `CSCI350` is
listed as `CSCI100`, `CSCI200`, `CSCI350`. -/
theorem printCourseList_sorted_permutation_witness :
    printCourseList sampleThree =
      some [("CSCI100".toList, "Introduction".toList),
        ("CSCI200".toList, "Data Structures".toList),
        ("CSCI350".toList, "Operating Systems".toList)] ∧
    ∃ out, printCourseList sampleThree = some out ∧
      out.Perm (sampleThree.getAllCourses.map (fun c => (c.courseNumber, c.courseTitle))) ∧
      out.Pairwise (fun a b => ¬ b.1 < a.1) :=
  ⟨by decide, printCourseList_sorted_permutation sampleThree (by decide)⟩

/-! ## Lemmas: `trim` and `toUpperCase` -/

theorem isWs_toUpper (c : Char) : isWs c.toUpper = isWs c := by
  unfold Char.toUpper
  simp only
  split
  · rename_i hr
    have h1 : isWs c = false := by
      have hc : c ≠ ' ' ∧ c ≠ '\t' ∧ c ≠ '\r' ∧ c ≠ '\n' := by
        refine ⟨?_, ?_, ?_, ?_⟩ <;> (rintro rfl; revert hr; decide)
      simp [isWs, hc]
    rw [h1]
    obtain ⟨n, hn⟩ : ∃ n, c.toNat = n := ⟨_, rfl⟩
    rw [hn] at hr ⊢
    obtain ⟨h97, h122⟩ := hr
    interval_cases n <;> decide
  · rfl

theorem trim_eq (s : Str) : trim s = (s.dropWhile isWs).rdropWhile isWs := by
  unfold trim
  simp only
  split
  · rename_i hd; rw [hd]; rfl
  · rfl

theorem dropWhile_ws_append (l w : Str) (hl : ∀ c ∈ l, isWs c = true)
    (hw : ∀ c, w.head? = some c → isWs c = false) : (l ++ w).dropWhile isWs = w := by
  rw [List.dropWhile_append_of_pos hl]
  cases w with
  | nil => rfl
  | cons x w => simp [List.dropWhile_cons, hw x rfl]

theorem trim_padded (left v right : Str) (hv : Trimmed v) (hne : v ≠ [])
    (hleft : ∀ c ∈ left, isWs c = true) (hright : ∀ c ∈ right, isWs c = true) :
    trim (left ++ v ++ right) = v := by
  rw [trim_eq, List.append_assoc, dropWhile_ws_append left (v ++ right) hleft]
  · rw [List.rdropWhile, List.reverse_append,
      dropWhile_ws_append right.reverse v.reverse (fun c hc => hright c (List.mem_reverse.mp hc))]
    · exact List.reverse_reverse v
    · intro c hc
      rw [List.head?_reverse] at hc
      exact hv.2 c hc
  · intro c hc
    cases v with
    | nil => exact absurd rfl hne
    | cons x v => exact hv.1 c (by simpa using hc)

theorem trimmed_trim (s : Str) : Trimmed (trim s) := by
  rw [trim_eq]
  constructor
  · intro c hc
    obtain ⟨t, ht⟩ := List.rdropWhile_prefix isWs (l := s.dropWhile isWs)
    have hd := List.head?_dropWhile_not isWs s
    cases hr : List.rdropWhile isWs (s.dropWhile isWs) with
    | nil => rw [hr] at hc; cases hc
    | cons x r =>
      rw [hr] at hc ht
      rw [← ht] at hd
      simp only [List.cons_append, List.head?_cons] at hd hc
      cases hc
      exact hd
  · intro c hc
    rw [List.rdropWhile, List.getLast?_reverse] at hc
    have hd := List.head?_dropWhile_not isWs (s.dropWhile isWs).reverse
    rw [hc] at hd
    exact hd

theorem trimmed_of_toUpperCase_eq (v t : Str) (h : toUpperCase v = toUpperCase t)
    (ht : Trimmed t) : Trimmed v := by
  unfold toUpperCase at h
  constructor
  · intro c hc
    have h1 : (v.map Char.toUpper).head? = some c.toUpper := by simp [hc]
    rw [h, List.head?_map] at h1
    obtain ⟨d, hd, hdc⟩ := Option.map_eq_some'.mp h1
    have := ht.1 d hd
    rw [← isWs_toUpper, hdc, isWs_toUpper] at this
    exact this
  · intro c hc
    have h1 : (v.map Char.toUpper).getLast? = some c.toUpper := by simp [hc]
    rw [h, List.getLast?_map] at h1
    obtain ⟨d, hd, hdc⟩ := Option.map_eq_some'.mp h1
    have := ht.2 d hd
    rw [← isWs_toUpper, hdc, isWs_toUpper] at this
    exact this

theorem trimmed_token (line : Str) (i : Nat) : Trimmed ((split line ',').getD i []) := by
  have h : (split line ',').getD i [] = trim ((getlines ',' line []).getD i []) := by
    unfold split
    simp [List.getD_eq_getElem?_getD]
    cases (getlines ',' line [])[i]? <;> rfl
  rw [h]
  exact trimmed_trim _

/-! ## Lemmas: lookup after the insert loop -/

theorem search_insertAll_of_not_mem (ht : HashTable) (h : ht.WF) (courses : List Course)
    (key : Str) (hno : ∀ d ∈ courses, d.courseNumber ≠ key) :
    (insertAll ht courses).search key = ht.search key := by
  induction courses generalizing ht with
  | nil => rfl
  | cons c cs ih =>
    have := ih (ht.insert c) (HashTable.insert_WF ht h c)
      (fun d hd => hno d (List.mem_cons_of_mem _ hd))
    unfold insertAll at this ⊢
    rw [List.foldl_cons, this, HashTable.search_insert ht h]
    simp [hno c (List.mem_cons_self _ _)]

theorem search_insertAll_last (ht : HashTable) (h : ht.WF) (before after : List Course)
    (c : Course) (hno : ∀ d ∈ after, d.courseNumber ≠ c.courseNumber) :
    (insertAll ht (before ++ c :: after)).search c.courseNumber = some c := by
  have h1 : insertAll ht (before ++ c :: after) =
      insertAll ((insertAll ht before).insert c) after := by
    simp [insertAll, List.foldl_append]
  rw [h1, search_insertAll_of_not_mem _ (HashTable.insert_WF _ (insertAll_WF ht h before) c)
    after _ hno, HashTable.search_insert _ (insertAll_WF ht h before)]
  simp

theorem load_true (ht : HashTable) (content : Str)
    (h : (loadCourseData (some content) ht).1 = true) :
    loadCourseData (some content) ht =
      (true, insertAll ht ((nonBlankLines content).map
        (fun line => courseOfTokens (split line ',')))) ∧
    prerequisitesExist ((nonBlankLines content).map
        (fun line => courseOfTokens (split line ','))) = true := by
  cases hr : readCourses (getlines '\n' content []) with
  | none => rw [load_of_read_none _ _ hr] at h; cases h
  | some temp =>
    have ht := tempCourses_eq content temp hr
    rw [load_of_read_some _ _ _ hr] at h ⊢
    by_cases hp : prerequisitesExist temp = true
    · subst ht
      simp [hp]
    · simp [hp] at h

/-! ## Claim about load followed by describe -/

set_option maxRecDepth 100000 in
/-- C4 as stated fails. A line with an empty identifier field loads, and
`printCourseInformation` called with that record's identifier rejects the
empty query. When two lines carry one identifier, the query finds the record
of the second line, so the title of the first line is not what is found. -/
theorem describe_misses_parsed_record :
    ((loadCourseData (some sampleEmptyIdFile) (HashTable.new 179)).1 = true ∧
      nonBlankLines sampleEmptyIdFile = [",Orientation".toList] ∧
      lineIdentifier ",Orientation".toList = [] ∧
      printCourseInformation (loadCourseData (some sampleEmptyIdFile) (HashTable.new 179)).2
        (lineIdentifier ",Orientation".toList) = CourseInformation.emptyInput) ∧
    ((loadCourseData (some sampleDuplicateFile) (HashTable.new 179)).1 = true ∧
      nonBlankLines sampleDuplicateFile =
        ["CSCI100,Introduction".toList, "CSCI100,Programming I".toList] ∧
      (split "CSCI100,Introduction".toList ',').getD 1 [] = "Introduction".toList ∧
      printCourseInformation (loadCourseData (some sampleDuplicateFile) (HashTable.new 179)).2
        (lineIdentifier "CSCI100,Introduction".toList) =
          CourseInformation.printed (mkCourse "CSCI100" "Programming I")) := by
  decide

/-- C4, amended: after a successful load, for every non-blank line of the file
whose identifier is not empty and is not the identifier of a later line,
`printCourseInformation` called with that identifier in any letter case and
with any surrounding whitespace prints a record whose number is the
upper-cased trimmed first field, whose title is the trimmed second field and
whose prerequisites are the upper-cased non-empty later fields, in file
order. -/
theorem describe_after_load (ht : HashTable) (h : ht.WF) (content : Str)
    (hload : (loadCourseData (some content) ht).1 = true)
    (before after : List Str) (line : Str)
    (hlines : nonBlankLines content = before ++ line :: after)
    (hid : lineIdentifier line ≠ [])
    (hlast : ∀ other ∈ after, lineIdentifier other ≠ lineIdentifier line)
    (left spelling right : Str)
    (hleft : ∀ c ∈ left, isWs c = true) (hright : ∀ c ∈ right, isWs c = true)
    (hspell : toUpperCase spelling = lineIdentifier line) :
    ∃ course,
      printCourseInformation (loadCourseData (some content) ht).2 (left ++ spelling ++ right) =
        CourseInformation.printed course ∧
      course.courseNumber = toUpperCase (trim ((getlines ',' line []).getD 0 [])) ∧
      course.courseTitle = trim ((getlines ',' line []).getD 1 []) ∧
      course.prerequisites =
        ((((getlines ',' line []).drop 2).map trim).filter (fun t => !t.isEmpty)).map
          toUpperCase := by
  obtain ⟨hl, -⟩ := load_true ht content hload
  have hne : spelling ≠ [] := by
    intro he
    rw [he] at hspell
    exact hid hspell.symm
  have htrim : trim (left ++ spelling ++ right) = spelling :=
    trim_padded left spelling right
      (trimmed_of_toUpperCase_eq spelling _ hspell (trimmed_token line 0)) hne hleft hright
  have hsearch : (loadCourseData (some content) ht).2.search (lineIdentifier line) =
      some (courseOfTokens (split line ',')) := by
    rw [hl, hlines, List.map_append, List.map_cons]
    refine search_insertAll_last ht h _ _ (courseOfTokens (split line ',')) ?_
    intro d hd
    obtain ⟨other, ho, rfl⟩ := List.mem_map.mp hd
    exact hlast other ho
  have hfield : ∀ i, (split line ',').getD i [] = trim ((getlines ',' line []).getD i []) := by
    intro i
    unfold split
    simp [List.getD_eq_getElem?_getD]
    cases (getlines ',' line [])[i]? <;> rfl
  refine ⟨courseOfTokens (split line ','), ?_, ?_, ?_, ?_⟩
  · unfold printCourseInformation
    simp only [htrim]
    have hne2 : spelling.isEmpty = false := by
      cases spelling with
      | nil => exact absurd rfl hne
      | cons x xs => rfl
    simp only [hne2, hspell, hsearch]
    rfl
  · show toUpperCase ((split line ',').getD 0 []) = _
    rw [hfield 0]
  · show (split line ',').getD 1 [] = _
    rw [hfield 1]
  · show (((split line ',').drop 2).filter (fun t => !t.isEmpty)).map toUpperCase = _
    unfold split
    rw [List.map_drop]

set_option maxRecDepth 100000 in
/-- Witness for C4, amended: the second line of the valid sample file, asked
for as `csci200` between a tab and a blank. -/
theorem describe_after_load_witness :
    ∃ course,
      printCourseInformation (loadCourseData (some sampleValidFile) sampleStore).2
        ("\t".toList ++ "cSci200".toList ++ " ".toList) = CourseInformation.printed course ∧
      course.courseNumber =
        toUpperCase (trim ((getlines ',' "CSCI200 ,Data Structures, csci100".toList []).getD 0 [])) ∧
      course.courseTitle =
        trim ((getlines ',' "CSCI200 ,Data Structures, csci100".toList []).getD 1 []) ∧
      course.prerequisites =
        ((((getlines ',' "CSCI200 ,Data Structures, csci100".toList []).drop 2).map trim).filter
          (fun t => !t.isEmpty)).map toUpperCase :=
  describe_after_load sampleStore (by decide) sampleValidFile (by decide)
    ["csci100, Introduction".toList] ["CSCI300,Algorithms,CSCI200,,CSCI100".toList]
    "CSCI200 ,Data Structures, csci100".toList (by decide) (by decide) (by decide)
    "\t".toList "cSci200".toList " ".toList (by decide) (by decide) (by decide)

/-! ## Claims about `addCourse` -/

theorem HashTable.search_isSome_of_stored (ht : HashTable) (h : ht.WF) (hp : Placed ht)
    (c : Course) (hc : c ∈ ht.getAllCourses) : (ht.search c.courseNumber).isSome = true := by
  cases hs : ht.search c.courseNumber with
  | some d => rfl
  | none => exact absurd rfl (HashTable.not_stored_of_search_none ht h hp _ hs c hc)

theorem toUpperCase_nil : toUpperCase [] = [] := rfl

/-- C11: for every store, `addCourse` called with a course number that is
empty, or empty after trimming, reports the empty-number error and returns the
table as it was, whatever the title and prerequisites lines would be. -/
theorem addCourse_empty_number (ht : HashTable) (input courseTitle prereqLine : Str)
    (h : trim input = []) :
    addCourse ht input courseTitle prereqLine = (AddOutcome.emptyNumber, ht) ∧
    (addCourse ht input courseTitle prereqLine).2.getAllCourses.length =
      ht.getAllCourses.length := by
  have h1 : addCourse ht input courseTitle prereqLine = (AddOutcome.emptyNumber, ht) := by
    simp [addCourse, h, toUpperCase_nil]
  rw [h1]
  exact ⟨rfl, rfl⟩

set_option maxRecDepth 100000 in
/-- Witness for C11: a number of blanks and a tab, with a title and a
prerequisite that would be accepted. -/
theorem addCourse_empty_number_witness :
    addCourse sampleCatalog "  \t".toList "Algorithms".toList "CSCI200".toList =
      (AddOutcome.emptyNumber, sampleCatalog) :=
  (addCourse_empty_number sampleCatalog "  \t".toList "Algorithms".toList "CSCI200".toList
    (by decide)).1

/-- C13: for every store, `addCourse` with a number that in trimmed upper case
is the number of a stored record is rejected (as a duplicate, or as empty when
that number is the empty string) and returns the table as it was, so the
stored record keeps its title and prerequisites and no record is added. -/
theorem addCourse_existing_number (ht : HashTable) (h : ht.WF) (hp : Placed ht)
    (input courseTitle prereqLine : Str)
    (hstored : ∃ c ∈ ht.getAllCourses, c.courseNumber = toUpperCase (trim input)) :
    (addCourse ht input courseTitle prereqLine).2 = ht ∧
    (addCourse ht input courseTitle prereqLine).1 =
      (if (toUpperCase (trim input)).isEmpty then AddOutcome.emptyNumber
        else AddOutcome.alreadyExists) := by
  obtain ⟨c, hc, hcn⟩ := hstored
  have hs := HashTable.search_isSome_of_stored ht h hp c hc
  rw [hcn] at hs
  unfold addCourse
  by_cases he : (toUpperCase (trim input)).isEmpty = true
  · simp [he]
  · simp [he, hs]

set_option maxRecDepth 100000 in
/-- Witness for C13: `csci200` with blanks, when `CSCI200` is stored. -/
theorem addCourse_existing_number_witness :
    addCourse sampleCatalog " csci200 ".toList "Other Title".toList [] =
      (AddOutcome.alreadyExists, sampleCatalog) :=
  Prod.ext
    (addCourse_existing_number sampleCatalog (by decide) (by decide)
      " csci200 ".toList "Other Title".toList []
      ⟨{ courseNumber := "CSCI200".toList, courseTitle := "Data Structures".toList,
         prerequisites := ["CSCI100".toList] }, by decide, by decide⟩).2
    (addCourse_existing_number sampleCatalog (by decide) (by decide)
      " csci200 ".toList "Other Title".toList []
      ⟨{ courseNumber := "CSCI200".toList, courseTitle := "Data Structures".toList,
         prerequisites := ["CSCI100".toList] }, by decide, by decide⟩).1

/-- C14: in `removeCourse`, when the number is a prerequisite of some stored
record and the answer to the first confirmation is not `yes` (trimmed, in any
letter case), the table is returned as it was: the operation reports
"cancelled" when the course exists, and the empty-number or not-found error
otherwise. -/
theorem removeCourse_declined (ht : HashTable) (input confirmation cleanupConfirm : Str)
    (hdep : ∃ c ∈ ht.getAllCourses, toUpperCase (trim input) ∈ c.prerequisites)
    (hno : toUpperCase (trim confirmation) ≠ "YES".toList) :
    (removeCourse ht input confirmation cleanupConfirm).2 = ht ∧
    (removeCourse ht input confirmation cleanupConfirm).1 =
      (if (toUpperCase (trim input)).isEmpty then RemoveOutcome.emptyInput
        else if (ht.search (toUpperCase (trim input))).isSome then RemoveOutcome.cancelled
        else RemoveOutcome.notFound) := by
  have hd : dependentCourses ht.getAllCourses (toUpperCase (trim input)) ≠ [] := by
    obtain ⟨c, hc, hp⟩ := hdep
    have hm : c.courseNumber ∈ dependentCourses ht.getAllCourses (toUpperCase (trim input)) := by
      unfold dependentCourses
      refine List.mem_map_of_mem _ (List.mem_filter.mpr ⟨hc, ?_⟩)
      simp only [List.any_eq_true, decide_eq_true_eq]
      exact ⟨_, hp, rfl⟩
    exact List.ne_nil_of_mem hm
  unfold removeCourse
  by_cases he : (toUpperCase (trim input)).isEmpty = true
  · simp [he]
  · cases hs : ht.search (toUpperCase (trim input)) with
    | none => simp [he, hs]
    | some c =>
      have hno2 : ¬ toUpperCase (trim confirmation) = ['Y', 'E', 'S'] := hno
      simp [he, hs, hd, hno2]

set_option maxRecDepth 100000 in
/-- Witness for C14: `CSCI100` is required by `CSCI200`; the answer is `no`. -/
theorem removeCourse_declined_witness :
    removeCourse sampleCatalog "csci100".toList "no".toList "yes".toList =
      (RemoveOutcome.cancelled, sampleCatalog) :=
  Prod.ext
    (removeCourse_declined sampleCatalog "csci100".toList "no".toList "yes".toList
      ⟨{ courseNumber := "CSCI200".toList, courseTitle := "Data Structures".toList,
         prerequisites := ["CSCI100".toList] }, by decide, by decide⟩ (by decide)).2
    (removeCourse_declined sampleCatalog "csci100".toList "no".toList "yes".toList
      ⟨{ courseNumber := "CSCI200".toList, courseTitle := "Data Structures".toList,
         prerequisites := ["CSCI100".toList] }, by decide, by decide⟩ (by decide)).1

/-! ## Lemmas: the prerequisites line of `addCourse` -/

theorem getlines_of_not_mem (delimiter : Char) (rest token : Str) (h : delimiter ∉ rest) :
    getlines delimiter rest token =
      if (token ++ rest).isEmpty then [] else [token ++ rest] := by
  induction rest generalizing token with
  | nil => simp [getlines]
  | cons c r ih =>
    have hc : c ≠ delimiter := fun e => h (by simp [e])
    have hr : delimiter ∉ r := fun e => h (List.mem_cons_of_mem _ e)
    rw [getlines, if_neg hc, ih _ hr]
    simp

theorem mem_dropWhile_of_neg {α : Type} (p : α → Bool) (l : List α) (x : α) (hx : x ∈ l)
    (hp : p x = false) : x ∈ l.dropWhile p := by
  induction l with
  | nil => cases hx
  | cons a l ih =>
    rw [List.dropWhile_cons]
    by_cases ha : p a = true
    · rw [if_pos ha]
      rcases List.mem_cons.mp hx with rfl | hm
      · rw [hp] at ha; cases ha
      · exact ih hm
    · rw [if_neg ha]
      exact hx

theorem mem_trim (s : Str) (c : Char) (hc : c ∈ s) (hw : isWs c = false) : c ∈ trim s := by
  rw [trim_eq, List.rdropWhile, List.mem_reverse]
  exact mem_dropWhile_of_neg _ _ _
    (List.mem_reverse.mpr (mem_dropWhile_of_neg _ _ _ hc hw)) hw

theorem trim_trim (s : Str) : trim (trim s) = trim s := by
  by_cases h : trim s = []
  · rw [h]; rfl
  · have := trim_padded [] (trim s) [] (trimmed_trim s) h (by simp) (by simp)
    simpa using this

theorem prereqInput_guard (line token : Str) (ht : token ∈ split line ',')
    (h1 : toUpperCase (trim token) ≠ [])
    (h2 : toUpperCase (trim token) ≠ "NONE".toList) :
    toUpperCase (trim line) ≠ [] ∧ toUpperCase (trim line) ≠ "NONE".toList := by
  by_cases hc : ',' ∈ line
  · have hm : ',' ∈ toUpperCase (trim line) :=
      List.mem_map.mpr ⟨',', mem_trim line ',' hc (by decide), by decide⟩
    constructor
    · exact List.ne_nil_of_mem hm
    · intro he
      rw [he] at hm
      revert hm
      decide
  · have hg : getlines ',' line [] = if line.isEmpty then [] else [line] := by
      simpa using getlines_of_not_mem ',' line [] hc
    unfold split at ht
    rw [hg] at ht
    cases line with
    | nil => simp at ht
    | cons a l =>
      simp only [List.isEmpty_cons, if_false, Bool.false_eq_true, List.map_cons, List.map_nil,
        List.mem_singleton] at ht
      rw [ht, trim_trim] at h1 h2
      exact ⟨h1, h2⟩

theorem validatePrerequisites_error (ht : HashTable) (tokens : List Str)
    (h : ∃ token ∈ tokens, toUpperCase (trim token) ≠ [] ∧
      toUpperCase (trim token) ≠ "NONE".toList ∧ ht.search (toUpperCase (trim token)) = none) :
    ∃ missing, validatePrerequisites ht tokens = Except.error missing ∧
      ht.search missing = none := by
  induction tokens with
  | nil => obtain ⟨t, ht, -⟩ := h; cases ht
  | cons t ts ih =>
    obtain ⟨token, hm, h1, h2, h3⟩ := h
    unfold validatePrerequisites
    simp only
    by_cases hskip : (toUpperCase (trim t) = "NONE".toList ∨ toUpperCase (trim t) = [])
    · have hne : token ≠ t := by
        rintro rfl
        rcases hskip with e | e
        · exact h2 e
        · exact h1 e
      have hts : token ∈ ts := by
        rcases List.mem_cons.mp hm with e | e
        · exact absurd e hne
        · exact e
      have hcond : (decide (toUpperCase (trim t) = "NONE".toList) ||
          (toUpperCase (trim t)).isEmpty) = true := by
        rcases hskip with e | e
        · simp [e]
        · simp [e]
      rw [if_pos hcond]
      exact ih ⟨token, hts, h1, h2, h3⟩
    · have hcond : ¬ (decide (toUpperCase (trim t) = "NONE".toList) ||
          (toUpperCase (trim t)).isEmpty) = true := by
        intro hc
        apply hskip
        simp only [Bool.or_eq_true, decide_eq_true_eq, List.isEmpty_iff] at hc
        exact hc
      rw [if_neg hcond]
      cases hs : ht.search (toUpperCase (trim t)) with
      | none => exact ⟨_, by simp, hs⟩
      | some d =>
        have hts : token ∈ ts := by
          rcases List.mem_cons.mp hm with e | e
          · rw [e, hs] at h3; cases h3
          · exact e
        obtain ⟨missing, hv, hmiss⟩ := ih ⟨token, hts, h1, h2, h3⟩
        exact ⟨missing, by simp [hv], hmiss⟩

/-- C12: for every store and every add request with a new, non-empty number
and a non-empty title, if some token of the prerequisites line is, in trimmed
upper case, neither empty nor `NONE` and is not the number of a stored record,
`addCourse` reports a missing prerequisite (one that `search` does not find)
and returns the table as it was, whatever tokens come before it. -/
theorem addCourse_missing_prerequisite (ht : HashTable) (h : ht.WF)
    (input courseTitle prereqLine : Str)
    (hnum : toUpperCase (trim input) ≠ [])
    (hnew : ∀ c ∈ ht.getAllCourses, c.courseNumber ≠ toUpperCase (trim input))
    (htitle : courseTitle ≠ [])
    (hmissing : ∃ token ∈ split prereqLine ',', toUpperCase (trim token) ≠ [] ∧
      toUpperCase (trim token) ≠ "NONE".toList ∧
      ∀ c ∈ ht.getAllCourses, c.courseNumber ≠ toUpperCase (trim token)) :
    ∃ missing,
      addCourse ht input courseTitle prereqLine = (AddOutcome.missingPrerequisite missing, ht) ∧
      ht.search missing = none := by
  obtain ⟨token, hm, h1, h2, h3⟩ := hmissing
  have hguard := prereqInput_guard prereqLine token hm h1 h2
  obtain ⟨missing, hv, hmiss⟩ := validatePrerequisites_error ht (split prereqLine ',')
    ⟨token, hm, h1, h2, HashTable.search_none_of_not_stored ht h _ h3⟩
  refine ⟨missing, ?_, hmiss⟩
  have hs := HashTable.search_none_of_not_stored ht h _ hnew
  have hg2 : ¬ toUpperCase (trim prereqLine) = ['N', 'O', 'N', 'E'] := hguard.2
  unfold addCourse
  simp [hnum, hs, htitle, hguard.1, hg2, hv]

set_option maxRecDepth 100000 in
/-- Witness for C12: `CSCI200` resolves, `MATH201` does not. -/
theorem addCourse_missing_prerequisite_witness :
    ∃ missing,
      addCourse sampleCatalog "csci300".toList "Algorithms".toList
          "csci200, none, math201".toList =
        (AddOutcome.missingPrerequisite missing, sampleCatalog) ∧
      sampleCatalog.search missing = none :=
  addCourse_missing_prerequisite sampleCatalog (by decide) "csci300".toList
    "Algorithms".toList "csci200, none, math201".toList (by decide) (by decide) (by decide)
    ⟨"math201".toList, by decide, by decide, by decide, by decide⟩

/-! ## Claims about the table after a load -/

theorem mem_getAllCourses_insertAll (ht : HashTable) (h : ht.WF) (courses : List Course)
    (c : Course) :
    c ∈ (insertAll ht courses).getAllCourses ↔ c ∈ courses ∨ c ∈ ht.getAllCourses := by
  rw [(getAllCourses_insertAll ht h courses).mem_iff, List.mem_append, List.mem_reverse]

theorem search_insertAll_isSome (ht : HashTable) (h : ht.WF) (courses : List Course)
    (key : Str)
    (hk : (∃ c ∈ courses, c.courseNumber = key) ∨ (ht.search key).isSome = true) :
    ((insertAll ht courses).search key).isSome = true := by
  induction courses generalizing ht with
  | nil =>
    rcases hk with ⟨c, hc, -⟩ | hk
    · cases hc
    · exact hk
  | cons c cs ih =>
    have hstep : insertAll ht (c :: cs) = insertAll (ht.insert c) cs := rfl
    rw [hstep]
    apply ih _ (HashTable.insert_WF ht h c)
    by_cases hc : c.courseNumber = key
    · right
      rw [HashTable.search_insert ht h, if_pos hc]
      rfl
    · rcases hk with ⟨d, hd, hdk⟩ | hk
      · rcases List.mem_cons.mp hd with rfl | hd
        · exact absurd hdk hc
        · exact Or.inl ⟨d, hd, hdk⟩
      · right
        rw [HashTable.search_insert ht h, if_neg hc]
        exact hk

/-- C17: if before the call every prerequisite of every stored record is found
by `search` (as in the empty table), then after a `loadCourseData` that
returns `true` every prerequisite of every record of the table is the number
of a record of the table, and `search` finds it. -/
theorem load_keeps_prerequisites_resolved (ht : HashTable) (h : ht.WF) (content : Str)
    (hres : ∀ c ∈ ht.getAllCourses, ∀ p ∈ c.prerequisites, (ht.search p).isSome = true)
    (hload : (loadCourseData (some content) ht).1 = true) :
    ∀ c ∈ (loadCourseData (some content) ht).2.getAllCourses, ∀ p ∈ c.prerequisites,
      (∃ d ∈ (loadCourseData (some content) ht).2.getAllCourses, d.courseNumber = p) ∧
      ((loadCourseData (some content) ht).2.search p).isSome = true := by
  obtain ⟨hl, hpre⟩ := load_true ht content hload
  rw [prerequisitesExist_iff] at hpre
  rw [hl]
  intro c hc p hp
  have hwf := insertAll_WF ht h ((nonBlankLines content).map
    (fun line => courseOfTokens (split line ',')))
  have hfound : ((insertAll ht ((nonBlankLines content).map
      (fun line => courseOfTokens (split line ',')))).search p).isSome = true := by
    apply search_insertAll_isSome ht h
    rcases (mem_getAllCourses_insertAll ht h _ c).mp hc with hc | hc
    · exact Or.inl (hpre c hc p hp)
    · exact Or.inr (hres c hc p hp)
  refine ⟨?_, hfound⟩
  obtain ⟨d, hd⟩ := Option.isSome_iff_exists.mp hfound
  exact ⟨d, (HashTable.search_mem _ hwf p d hd).2, (HashTable.search_mem _ hwf p d hd).1⟩

set_option maxRecDepth 100000 in
/-- Witness for C17: the valid sample file loaded into the store that holds
`CSCI100`; afterwards the prerequisite `CSCI200` of `CSCI300` is stored and found. -/
theorem load_keeps_prerequisites_resolved_witness :
    (loadCourseData (some sampleValidFile) sampleStore).1 = true ∧
    (∃ d ∈ (loadCourseData (some sampleValidFile) sampleStore).2.getAllCourses,
      d.courseNumber = "CSCI200".toList) ∧
    ((loadCourseData (some sampleValidFile) sampleStore).2.search "CSCI200".toList).isSome =
      true :=
  ⟨by decide,
    load_keeps_prerequisites_resolved sampleStore (by decide) sampleValidFile (by decide)
      (by decide)
      { courseNumber := "CSCI300".toList, courseTitle := "Algorithms".toList,
        prerequisites := ["CSCI200".toList, "CSCI100".toList] }
      (by decide) "CSCI200".toList (by decide)⟩

/-- C18: after a `loadCourseData` that returns `true`, `search` of the
identifier of a line that no later line repeats returns the record of that
line, whether or not earlier lines or the table before the load had a record
under it; `search` of an identifier that no line has returns what it returned
before; and every record stored before is still stored. -/
theorem load_last_line_wins (ht : HashTable) (h : ht.WF) (content : Str)
    (hload : (loadCourseData (some content) ht).1 = true) :
    (∀ before after : List Str, ∀ line : Str,
      nonBlankLines content = before ++ line :: after →
      (∀ other ∈ after, lineIdentifier other ≠ lineIdentifier line) →
      (loadCourseData (some content) ht).2.search (lineIdentifier line) =
        some (courseOfTokens (split line ','))) ∧
    (∀ key : Str, (∀ line ∈ nonBlankLines content, lineIdentifier line ≠ key) →
      (loadCourseData (some content) ht).2.search key = ht.search key) ∧
    (∀ c ∈ ht.getAllCourses, c ∈ (loadCourseData (some content) ht).2.getAllCourses) := by
  obtain ⟨hl, -⟩ := load_true ht content hload
  rw [hl]
  refine ⟨?_, ?_, ?_⟩
  · intro before after line hlines hlast
    rw [hlines, List.map_append, List.map_cons]
    refine search_insertAll_last ht h _ _ (courseOfTokens (split line ',')) ?_
    intro d hd
    obtain ⟨other, ho, rfl⟩ := List.mem_map.mp hd
    exact hlast other ho
  · intro key hkey
    apply search_insertAll_of_not_mem ht h
    intro d hd
    obtain ⟨line, hline, rfl⟩ := List.mem_map.mp hd
    exact hkey line hline
  · intro c hc
    exact (mem_getAllCourses_insertAll ht h _ c).mpr (Or.inr hc)

set_option maxRecDepth 100000 in
/-- Witness for C18: the store holds `CSCI100`, the file has two lines for
`CSCI100`; afterwards `search` returns the record of the second line. -/
theorem load_last_line_wins_witness :
    sampleStore.search "CSCI100".toList = some (mkCourse "CSCI100" "Introduction") ∧
    (loadCourseData (some sampleDuplicateFile) sampleStore).2.search
        (lineIdentifier "CSCI100,Programming I".toList) =
      some (courseOfTokens (split "CSCI100,Programming I".toList ',')) :=
  ⟨by decide,
    (load_last_line_wins sampleStore (by decide) sampleDuplicateFile (by decide)).1
      ["CSCI100,Introduction".toList] [] "CSCI100,Programming I".toList (by decide)
      (by decide)⟩

/-! ## Lemmas: cleanup on a table with unique numbers -/

theorem courseNumber_withoutPrerequisite (x : Str) (c : Course) :
    (withoutPrerequisite x c).courseNumber = c.courseNumber := rfl

theorem not_mem_prerequisites_withoutPrerequisite (x : Str) (c : Course) :
    x ∉ (withoutPrerequisite x c).prerequisites := by
  simp [withoutPrerequisite, List.mem_filter]

theorem withoutPrerequisite_of_not_mem (x : Str) (c : Course) (h : x ∉ c.prerequisites) :
    withoutPrerequisite x c = c := by
  have hf : c.prerequisites.filter (fun p => p ≠ x) = c.prerequisites := by
    rw [List.filter_eq_self]
    intro a ha
    simp only [ne_eq, decide_not, Bool.not_eq_true', decide_eq_false_iff_not]
    rintro rfl
    exact h ha
  unfold withoutPrerequisite
  rw [hf]

theorem cleanupStep_eq (x : Str) (ht : HashTable) (c : Course) :
    cleanupStep x ht c =
      if c.prerequisites.filter (fun p => p ≠ x) = c.prerequisites then ht
      else (ht.remove c.courseNumber).2.insert (withoutPrerequisite x c) := by
  unfold cleanupStep
  simp only
  by_cases hf : c.prerequisites.filter (fun p => p ≠ x) = c.prerequisites
  · rw [if_pos hf, hf]
    simp
  · rw [if_neg hf]
    have hlen : (c.prerequisites.filter (fun p => p ≠ x)).length ≠ c.prerequisites.length := by
      intro hl
      apply hf
      rw [List.filter_eq_self]
      exact List.filter_length_eq_length.mp hl
    rw [if_pos hlen]
    rfl

theorem HashTable.search_of_stored_unique (ht : HashTable) (h : ht.WF) (hp : Placed ht)
    (hu : UniqueNumbers ht) (c : Course) (hc : c ∈ ht.getAllCourses) :
    ht.search c.courseNumber = some c := by
  have hs := HashTable.search_isSome_of_stored ht h hp c hc
  obtain ⟨d, hd⟩ := Option.isSome_iff_exists.mp hs
  have hmem := HashTable.search_mem ht h _ d hd
  have : d = c := List.inj_on_of_nodup_map hu hmem.2 hc hmem.1
  rw [hd, this]

theorem cleanupStep_perm (x : Str) (ht : HashTable) (h : ht.WF) (hp : Placed ht)
    (hu : UniqueNumbers ht) (c : Course) (rest : List Course)
    (hperm : ht.getAllCourses.Perm (c :: rest)) :
    (cleanupStep x ht c).WF ∧ Placed (cleanupStep x ht c) ∧
      UniqueNumbers (cleanupStep x ht c) ∧
      (cleanupStep x ht c).getAllCourses.Perm (withoutPrerequisite x c :: rest) := by
  have hc : c ∈ ht.getAllCourses := hperm.mem_iff.mpr (List.mem_cons_self _ _)
  rw [cleanupStep_eq]
  by_cases hf : c.prerequisites.filter (fun p => p ≠ x) = c.prerequisites
  · rw [if_pos hf]
    have hw : withoutPrerequisite x c = c := by
      unfold withoutPrerequisite
      rw [hf]
    rw [hw]
    exact ⟨h, hp, hu, hperm⟩
  · rw [if_neg hf]
    have hs := HashTable.search_of_stored_unique ht h hp hu c hc
    have hrem := HashTable.getAllCourses_remove ht h _ c hs
    have hrest : (ht.remove c.courseNumber).2.getAllCourses.Perm rest :=
      (hrem.symm.trans hperm).cons_inv
    have hwf := HashTable.remove_WF ht h c.courseNumber
    have hins := HashTable.getAllCourses_insert _ hwf (withoutPrerequisite x c)
    have hfinal := hins.trans (hrest.cons _)
    refine ⟨HashTable.insert_WF _ hwf _,
      HashTable.placed_insert _ hwf (HashTable.placed_remove ht h hp _) _, ?_, hfinal⟩
    unfold UniqueNumbers at hu ⊢
    rw [(hfinal.map Course.courseNumber).nodup_iff, List.map_cons,
      courseNumber_withoutPrerequisite]
    rw [(hperm.map Course.courseNumber).nodup_iff, List.map_cons] at hu
    exact hu

theorem foldl_cleanupStep_perm (x : Str) (todo done : List Course) (ht : HashTable)
    (h : ht.WF) (hp : Placed ht) (hu : UniqueNumbers ht)
    (hperm : ht.getAllCourses.Perm (done ++ todo)) :
    (todo.foldl (cleanupStep x) ht).WF ∧ Placed (todo.foldl (cleanupStep x) ht) ∧
      UniqueNumbers (todo.foldl (cleanupStep x) ht) ∧
      (todo.foldl (cleanupStep x) ht).getAllCourses.Perm
        (done ++ todo.map (withoutPrerequisite x)) := by
  induction todo generalizing ht done with
  | nil => exact ⟨h, hp, hu, by simpa using hperm⟩
  | cons c cs ih =>
    have h1 : ht.getAllCourses.Perm (c :: (done ++ cs)) := hperm.trans List.perm_middle
    obtain ⟨hwf, hpl, hun, hpm⟩ := cleanupStep_perm x ht h hp hu c (done ++ cs) h1
    have h2 : (cleanupStep x ht c).getAllCourses.Perm
        ((done ++ [withoutPrerequisite x c]) ++ cs) := by
      refine hpm.trans ?_
      rw [List.append_assoc, List.singleton_append]
      exact List.perm_middle.symm
    have := ih (done ++ [withoutPrerequisite x c]) (cleanupStep x ht c) hwf hpl hun h2
    simpa [List.append_assoc] using this

theorem cleanup_perm (x : Str) (ht : HashTable) (h : ht.WF) (hp : Placed ht)
    (hu : UniqueNumbers ht) :
    (removePrerequisiteFromAllCourses ht x).WF ∧
      Placed (removePrerequisiteFromAllCourses ht x) ∧
      UniqueNumbers (removePrerequisiteFromAllCourses ht x) ∧
      (removePrerequisiteFromAllCourses ht x).getAllCourses.Perm
        (ht.getAllCourses.map (withoutPrerequisite x)) := by
  have := foldl_cleanupStep_perm x ht.getAllCourses [] ht h hp hu (by simp)
  simpa [removePrerequisiteFromAllCourses] using this

theorem HashTable.uniqueNumbers_remove (ht : HashTable) (h : ht.WF) (hu : UniqueNumbers ht)
    (key : Str) : UniqueNumbers (ht.remove key).2 := by
  cases hs : ht.search key with
  | none => rw [HashTable.remove_of_search_none ht h key hs]; exact hu
  | some d =>
    unfold UniqueNumbers at hu ⊢
    rw [((HashTable.getAllCourses_remove ht h key d hs).map Course.courseNumber).nodup_iff,
      List.map_cons, List.nodup_cons] at hu
    exact hu.2

/-! ## Claims about removal and cleanup -/

set_option maxRecDepth 100000 in
/-- C15, the code at the failing input: the file with two lines for `CSCI200`
loads; after `removeCourse` of `CSCI100` with both answers `yes`, which ends
with "Prerequisite cleanup completed", a record that lists `CSCI100` is still
stored. -/
theorem cleanup_misses_shadowed_record :
    (loadCourseData (some sampleTwoDependentsFile) (HashTable.new 179)).1 = true ∧
    (removeCourse (loadCourseData (some sampleTwoDependentsFile) (HashTable.new 179)).2
      "CSCI100".toList "yes".toList "yes".toList).1 = RemoveOutcome.removed true ∧
    ∃ y ∈ (removeCourse (loadCourseData (some sampleTwoDependentsFile) (HashTable.new 179)).2
        "CSCI100".toList "yes".toList "yes".toList).2.getAllCourses,
      "CSCI100".toList ∈ y.prerequisites := by
  decide

/-- Where the cleanup does reach every record: on a table in which no two
records carry the same number (and each record is in the bucket of its
number), if `removeCourse` removes the course and the cleanup is confirmed,
then afterwards no record of the table has the removed number in its
prerequisite list. -/
theorem cleanup_confirmed_strips (ht : HashTable) (h : ht.WF) (hp : Placed ht)
    (hu : UniqueNumbers ht) (input confirmation cleanupConfirm : Str)
    (hout : (removeCourse ht input confirmation cleanupConfirm).1 =
      RemoveOutcome.removed true) :
    ∀ y ∈ (removeCourse ht input confirmation cleanupConfirm).2.getAllCourses,
      toUpperCase (trim input) ∉ y.prerequisites := by
  obtain ⟨-, -, htab⟩ := removeCourse_removed ht input confirmation cleanupConfirm true hout
  rw [htab, if_pos rfl]
  have h0 := cleanup_perm (toUpperCase (trim input)) (ht.remove (toUpperCase (trim input))).2
    (HashTable.remove_WF ht h _) (HashTable.placed_remove ht h hp _)
    (HashTable.uniqueNumbers_remove ht h hu _)
  have h1 := cleanup_perm (toUpperCase (trim input)) _ h0.1 h0.2.1 h0.2.2.1
  intro y hy
  obtain ⟨c, -, rfl⟩ := List.mem_map.mp (h1.2.2.2.mem_iff.mp hy)
  exact not_mem_prerequisites_withoutPrerequisite _ c

set_option maxRecDepth 100000 in
/-- An instance of `cleanup_confirmed_strips`: `CSCI100` removed from the
two-course catalog, both answers `yes`. -/
theorem cleanup_confirmed_strips_witness :
    (removeCourse sampleCatalog "csci100".toList "YES".toList "yes".toList).1 =
      RemoveOutcome.removed true ∧
    ∀ y ∈ (removeCourse sampleCatalog "csci100".toList "YES".toList
        "yes".toList).2.getAllCourses,
      toUpperCase (trim "csci100".toList) ∉ y.prerequisites :=
  ⟨by decide,
    cleanup_confirmed_strips sampleCatalog (by decide) (by decide) (by decide)
      "csci100".toList "YES".toList "yes".toList (by decide)⟩

set_option maxRecDepth 100000 in
/-- C16, the code at the failing input: `CSCI200` lists `CSCI100`; after
`removeCourse` of `CSCI100` with the removal confirmed and the cleanup
declined, the operation reports that the cleanup was skipped and `CSCI200` no
longer lists `CSCI100`. -/
theorem cleanup_runs_when_declined :
    sampleCatalog.search "CSCI200".toList =
      some { courseNumber := "CSCI200".toList, courseTitle := "Data Structures".toList,
             prerequisites := ["CSCI100".toList] } ∧
    (removeCourse sampleCatalog "CSCI100".toList "yes".toList "no".toList).1 =
      RemoveOutcome.removed false ∧
    (removeCourse sampleCatalog "CSCI100".toList "yes".toList "no".toList).2.search
        "CSCI200".toList =
      some { courseNumber := "CSCI200".toList, courseTitle := "Data Structures".toList,
             prerequisites := [] } := by
  decide

set_option maxRecDepth 100000 in
/-- C19, the code at the failing input: in the table loaded from the file with
two lines for `CSCI200`, the newer record does not list `CSCI100` and is the
one `search` returns; after the cleanup of `CSCI100` it is no longer stored,
the older record still lists `CSCI100`, and `search` returns a rewritten copy
of the older record. -/
theorem cleanup_drops_untouched_record :
    (loadCourseData (some sampleShadowedFile) (HashTable.new 179)).1 = true ∧
    mkCourse "CSCI200" "New Title" ∈
      (loadCourseData (some sampleShadowedFile) (HashTable.new 179)).2.getAllCourses ∧
    "CSCI100".toList ∉ (mkCourse "CSCI200" "New Title").prerequisites ∧
    mkCourse "CSCI200" "New Title" ∉
      (removePrerequisiteFromAllCourses
        (loadCourseData (some sampleShadowedFile) (HashTable.new 179)).2
        "CSCI100".toList).getAllCourses ∧
    { courseNumber := "CSCI200".toList, courseTitle := "Old Title".toList,
      prerequisites := ["CSCI100".toList] } ∈
      (removePrerequisiteFromAllCourses
        (loadCourseData (some sampleShadowedFile) (HashTable.new 179)).2
        "CSCI100".toList).getAllCourses ∧
    (loadCourseData (some sampleShadowedFile) (HashTable.new 179)).2.search
        "CSCI200".toList = some (mkCourse "CSCI200" "New Title") ∧
    (removePrerequisiteFromAllCourses
        (loadCourseData (some sampleShadowedFile) (HashTable.new 179)).2
        "CSCI100".toList).search "CSCI200".toList =
      some (mkCourse "CSCI200" "Old Title") := by
  decide

/-- Where the cleanup leaves the other records alone: on a table in which no
two records carry the same number (and each record is in the bucket of its
number), after
`removePrerequisiteFromAllCourses` with number `x`: a record whose list does
not contain `x` is stored and found as before; a record whose list contains
`x` is stored and found with the same number and title and with its other
prerequisites in their order; and the stored numbers are the same. -/
theorem cleanup_frame (ht : HashTable) (h : ht.WF) (hp : Placed ht) (hu : UniqueNumbers ht)
    (x : Str) :
    (∀ c ∈ ht.getAllCourses, x ∉ c.prerequisites →
      c ∈ (removePrerequisiteFromAllCourses ht x).getAllCourses ∧
      (removePrerequisiteFromAllCourses ht x).search c.courseNumber = some c) ∧
    (∀ c ∈ ht.getAllCourses, x ∈ c.prerequisites →
      ∃ d ∈ (removePrerequisiteFromAllCourses ht x).getAllCourses,
        (removePrerequisiteFromAllCourses ht x).search c.courseNumber = some d ∧
        d.courseNumber = c.courseNumber ∧ d.courseTitle = c.courseTitle ∧
        d.prerequisites = c.prerequisites.filter (fun p => p ≠ x)) ∧
    ((removePrerequisiteFromAllCourses ht x).getAllCourses.map Course.courseNumber).Perm
      (ht.getAllCourses.map Course.courseNumber) := by
  obtain ⟨hwf, hpl, hun, hperm⟩ := cleanup_perm x ht h hp hu
  have hmem : ∀ c ∈ ht.getAllCourses,
      withoutPrerequisite x c ∈ (removePrerequisiteFromAllCourses ht x).getAllCourses :=
    fun c hc => hperm.mem_iff.mpr (List.mem_map_of_mem _ hc)
  have hfind : ∀ c ∈ ht.getAllCourses,
      (removePrerequisiteFromAllCourses ht x).search c.courseNumber =
        some (withoutPrerequisite x c) :=
    fun c hc => HashTable.search_of_stored_unique _ hwf hpl hun _ (hmem c hc)
  refine ⟨?_, ?_, ?_⟩
  · intro c hc hx
    have hw := withoutPrerequisite_of_not_mem x c hx
    have h1 := hmem c hc
    have h2 := hfind c hc
    rw [hw] at h1 h2
    exact ⟨h1, h2⟩
  · intro c hc _
    exact ⟨withoutPrerequisite x c, hmem c hc, hfind c hc, rfl, rfl, rfl⟩
  · have := hperm.map Course.courseNumber
    rw [List.map_map] at this
    exact this

set_option maxRecDepth 100000 in
/-- An instance of `cleanup_frame`: cleanup of `CSCI100` in the two-course
catalog leaves `CSCI100` as it is and `CSCI200` without its prerequisite. -/
theorem cleanup_frame_witness :
    (removePrerequisiteFromAllCourses sampleCatalog "CSCI100".toList).search
        "CSCI100".toList = some (mkCourse "CSCI100" "Introduction") ∧
    ((removePrerequisiteFromAllCourses sampleCatalog "CSCI100".toList).getAllCourses.map
        Course.courseNumber).Perm (sampleCatalog.getAllCourses.map Course.courseNumber) :=
  ⟨((cleanup_frame sampleCatalog (by decide) (by decide) (by decide) "CSCI100".toList).1
      (mkCourse "CSCI100" "Introduction") (by decide) (by decide)).2,
    (cleanup_frame sampleCatalog (by decide) (by decide) (by decide) "CSCI100".toList).2.2⟩

set_option maxRecDepth 100000 in
/-- C20, the code at the failing input: the line `CSCI100,,` gives two tokens,
the second empty; `loadCourseData` returns `true` and stores a record with an
empty title. -/
theorem load_accepts_empty_title :
    split "CSCI100,,".toList ',' = ["CSCI100".toList, []] ∧
    (loadCourseData (some sampleEmptyTitleFile) (HashTable.new 179)).1 = true ∧
    (loadCourseData (some sampleEmptyTitleFile) (HashTable.new 179)).2.getAllCourses =
      [{ courseNumber := "CSCI100".toList, courseTitle := [], prerequisites := [] }] := by
  decide

/-! ## Claim about `split` -/

theorem searchChain_eq_head (chain : List Course) (key : Str) :
    HashTable.searchChain chain key = (chain.filter (fun c => c.courseNumber = key)).head? := by
  induction chain with
  | nil => rfl
  | cons c cs ih =>
    by_cases hc : c.courseNumber = key
    · simp [HashTable.searchChain, hc]
    · simp [HashTable.searchChain, hc, ih]

theorem search_eq_head (ht : HashTable) (key : Str) :
    ht.search key = (recordsOf ht key).head? :=
  searchChain_eq_head _ key

theorem filter_removeChain_self (chain : List Course) (key : Str) :
    (HashTable.removeChain chain key).2.filter (fun c => c.courseNumber = key) =
      (chain.filter (fun c => c.courseNumber = key)).tail := by
  induction chain with
  | nil => rfl
  | cons c cs ih =>
    by_cases hc : c.courseNumber = key
    · simp [HashTable.removeChain, hc]
    · simp [HashTable.removeChain, hc, ih]

theorem filter_removeChain_ne (chain : List Course) (key other : Str) (h : other ≠ key) :
    (HashTable.removeChain chain key).2.filter (fun c => c.courseNumber = other) =
      chain.filter (fun c => c.courseNumber = other) := by
  induction chain with
  | nil => rfl
  | cons c cs ih =>
    by_cases hc : c.courseNumber = key
    · have hco : c.courseNumber ≠ other := fun e => h (e.symm.trans hc)
      simp [HashTable.removeChain, hc, hco, Ne.symm h]
    · by_cases hco : c.courseNumber = other
      · simp only [HashTable.removeChain, hc, if_false]
        simp [hco, ih]
      · simp [HashTable.removeChain, hc, hco, ih]

theorem recordsOf_insert (ht : HashTable) (h : ht.WF) (course : Course) (key : Str) :
    recordsOf (ht.insert course) key =
      if course.courseNumber = key then course :: recordsOf ht key else recordsOf ht key := by
  have hlt := HashTable.hash_lt ht h course.courseNumber
  have hk : (ht.insert course).hash key = ht.hash key :=
    HashTable.hash_congr _ _ (HashTable.insert_tableSize ht course) key
  unfold recordsOf
  rw [hk, HashTable.insert_eq]
  by_cases hc : course.courseNumber = key
  · subst hc
    simp [List.getD_eq_getElem?_getD, List.getElem?_set, hlt]
  · by_cases hh : ht.hash course.courseNumber = ht.hash key
    · rw [← hh]
      simp [List.getD_eq_getElem?_getD, List.getElem?_set, hlt, hc]
    · simp [List.getD_eq_getElem?_getD, List.getElem?_set, hh, hc]

theorem recordsOf_remove (ht : HashTable) (h : ht.WF) (key other : Str) :
    recordsOf (ht.remove key).2 other =
      if key = other then (recordsOf ht other).tail else recordsOf ht other := by
  have hlt := HashTable.hash_lt ht h key
  have hk : (ht.remove key).2.hash other = ht.hash other :=
    HashTable.hash_congr _ _ (HashTable.remove_tableSize ht key) other
  unfold recordsOf
  rw [hk]
  unfold HashTable.remove
  by_cases hc : key = other
  · subst hc
    simp [List.getD_eq_getElem?_getD, List.getElem?_set, hlt, filter_removeChain_self]
  · by_cases hh : ht.hash key = ht.hash other
    · rw [← hh]
      simp [List.getD_eq_getElem?_getD, List.getElem?_set, hlt, hc,
        filter_removeChain_ne _ _ _ (Ne.symm hc)]
    · simp [List.getD_eq_getElem?_getD, List.getElem?_set, hh, hc]

theorem filter_flatten_of_bucket {α : Type} (p : α → Bool) (l : List (List α)) (j : Nat)
    (h : ∀ i, i ≠ j → ∀ c ∈ l.getD i [], p c = false) :
    l.flatten.filter p = (l.getD j []).filter p := by
  induction l generalizing j with
  | nil => simp
  | cons b l ih =>
    rw [List.flatten_cons, List.filter_append]
    cases j with
    | zero =>
      have hnil : l.flatten.filter p = [] := by
        rw [List.filter_eq_nil_iff]
        intro c hc
        obtain ⟨b2, hb2, hcb⟩ := List.mem_flatten.mp hc
        obtain ⟨i, hi, rfl⟩ := List.getElem_of_mem hb2
        have := h (i + 1) (by omega) c (by
          simp only [List.getD_cons_succ]
          rw [HashTable.getD_lt _ _ _ hi]
          exact hcb)
        simp [this]
      simp [hnil]
    | succ j =>
      have hb : b.filter p = [] := by
        rw [List.filter_eq_nil_iff]
        intro c hc
        have := h 0 (by omega) c (by simpa using hc)
        simp [this]
      rw [hb, List.nil_append, List.getD_cons_succ]
      apply ih
      intro i hi c hc
      exact h (i + 1) (by omega) c (by simpa using hc)

theorem filter_getAllCourses (ht : HashTable) (h : ht.WF) (hp : Placed ht) (key : Str) :
    ht.getAllCourses.filter (fun c => c.courseNumber = key) = recordsOf ht key := by
  rw [HashTable.getAllCourses_eq_flatten ht h]
  unfold recordsOf
  apply filter_flatten_of_bucket
  intro i hi c hc
  simp only [decide_eq_false_iff_not]
  intro hck
  apply hi
  rw [← hp i c hc, hck]

theorem perm_of_filter_eq (l1 l2 : List Course)
    (h : ∀ key : Str, l1.filter (fun c => c.courseNumber = key) =
      l2.filter (fun c => c.courseNumber = key)) : l1.Perm l2 := by
  rw [List.perm_iff_count]
  intro a
  have h1 : List.count a (l1.filter (fun c => c.courseNumber = a.courseNumber)) =
      List.count a l1 := List.count_filter (by simp)
  have h2 : List.count a (l2.filter (fun c => c.courseNumber = a.courseNumber)) =
      List.count a l2 := List.count_filter (by simp)
  rw [← h1, ← h2, h a.courseNumber]

theorem getAllCourses_perm_of_recordsOf (a b : HashTable) (ha : a.WF) (hpa : Placed a)
    (hb : b.WF) (hpb : Placed b) (h : ∀ key, recordsOf a key = recordsOf b key) :
    a.getAllCourses.Perm b.getAllCourses := by
  apply perm_of_filter_eq
  intro key
  rw [filter_getAllCourses a ha hpa, filter_getAllCourses b hb hpb, h key]

/-! ## Claim about lookup and enumeration -/

theorem filter_eraseP_self (l : List Course) (key : Str) :
    (l.eraseP (fun c => c.courseNumber = key)).filter (fun c => c.courseNumber = key) =
      (l.filter (fun c => c.courseNumber = key)).tail := by
  induction l with
  | nil => rfl
  | cons c cs ih =>
    by_cases hc : c.courseNumber = key
    · simp [List.eraseP_cons, hc]
    · simp [List.eraseP_cons, hc, ih]

theorem filter_eraseP_ne (l : List Course) (key other : Str) (h : other ≠ key) :
    (l.eraseP (fun c => c.courseNumber = key)).filter (fun c => c.courseNumber = other) =
      l.filter (fun c => c.courseNumber = other) := by
  induction l with
  | nil => rfl
  | cons c cs ih =>
    by_cases hc : c.courseNumber = key
    · have hco : c.courseNumber ≠ other := fun e => h (e.symm.trans hc)
      rw [List.eraseP_cons_of_pos (by simpa using hc),
        List.filter_cons_of_neg (by simpa using hco)]
    · rw [List.eraseP_cons_of_neg (by simpa using hc)]
      by_cases hco : c.courseNumber = other
      · rw [List.filter_cons_of_pos (by simpa using hco),
          List.filter_cons_of_pos (by simpa using hco), ih]
      · rw [List.filter_cons_of_neg (by simpa using hco),
          List.filter_cons_of_neg (by simpa using hco), ih]

theorem head?_filter_eq_find? (l : List Course) (key : Str) :
    (l.filter (fun c => c.courseNumber = key)).head? =
      l.find? (fun c => c.courseNumber = key) := by
  induction l with
  | nil => rfl
  | cons c cs ih =>
    by_cases hc : c.courseNumber = key
    · simp [hc]
    · simp [hc, ih]

theorem applyOp_placed (ht : HashTable) (h : ht.WF) (hp : Placed ht) (op : StoreOp) :
    Placed (applyOp ht op) := by
  cases op with
  | insert c => exact HashTable.placed_insert ht h hp c
  | remove k => exact HashTable.placed_remove ht h hp k

theorem applyOps_placed (ht : HashTable) (h : ht.WF) (hp : Placed ht) (ops : List StoreOp) :
    Placed (applyOps ht ops) := by
  induction ops generalizing ht with
  | nil => exact hp
  | cons op ops ih => exact ih _ (applyOp_WF ht h op) (applyOp_placed ht h hp op)

theorem recordsOf_applyOp (ht : HashTable) (h : ht.WF) (live : List Course)
    (hrec : ∀ key, recordsOf ht key = live.filter (fun c => c.courseNumber = key))
    (op : StoreOp) (key : Str) :
    recordsOf (applyOp ht op) key =
      (liveStep live op).filter (fun c => c.courseNumber = key) := by
  cases op with
  | insert c =>
    show recordsOf (ht.insert c) key = _
    rw [recordsOf_insert ht h, hrec key]
    by_cases hc : c.courseNumber = key
    · simp [liveStep, hc]
    · simp [liveStep, hc]
  | remove k =>
    show recordsOf (ht.remove k).2 key = _
    rw [recordsOf_remove ht h, hrec key]
    by_cases hc : k = key
    · subst hc
      simp [liveStep, filter_eraseP_self]
    · simp only [liveStep, if_neg hc]
      rw [filter_eraseP_ne _ _ _ (Ne.symm hc)]

theorem recordsOf_applyOps (ht : HashTable) (h : ht.WF) (live : List Course)
    (hrec : ∀ key, recordsOf ht key = live.filter (fun c => c.courseNumber = key))
    (ops : List StoreOp) (key : Str) :
    recordsOf (applyOps ht ops) key =
      (ops.foldl liveStep live).filter (fun c => c.courseNumber = key) := by
  induction ops generalizing ht live with
  | nil => exact hrec key
  | cons op ops ih =>
    exact ih (applyOp ht op) (applyOp_WF ht h op) (liveStep live op)
      (fun k => recordsOf_applyOp ht h live hrec op k)

theorem recordsOf_new (size : Nat) (key : Str) : recordsOf (HashTable.new size) key = [] := by
  have hb : (HashTable.new size).table.getD ((HashTable.new size).hash key) [] = [] := by
    simp only [HashTable.new, List.getD_eq_getElem?_getD, List.getElem?_replicate]
    split <;> rfl
  unfold recordsOf
  rw [hb]
  rfl

/-- C22: in a table reached from the empty table by inserts and removes every
record sits in the bucket of its number; `getAllCourses` holds exactly the
records inserted and not removed; and for every key `search` finds a record
exactly when `getAllCourses` holds one with that number, and it returns the
most recently inserted of them. -/
theorem search_agrees_with_enumeration (size : Nat) (hsize : 0 < size) (ops : List StoreOp) :
    Placed (applyOps (HashTable.new size) ops) ∧
    (applyOps (HashTable.new size) ops).getAllCourses.Perm (liveRecords ops) ∧
    ∀ key : Str,
      (((applyOps (HashTable.new size) ops).search key).isSome = true ↔
        ∃ c ∈ (applyOps (HashTable.new size) ops).getAllCourses, c.courseNumber = key) ∧
      (applyOps (HashTable.new size) ops).search key =
        (liveRecords ops).find? (fun c => c.courseNumber = key) := by
  have hwf0 := HashTable.new_WF size hsize
  have hwf := applyOps_WF _ hwf0 ops
  have hpl := applyOps_placed _ hwf0 (HashTable.placed_new size) ops
  have hrec : ∀ key, recordsOf (applyOps (HashTable.new size) ops) key =
      (liveRecords ops).filter (fun c => c.courseNumber = key) :=
    fun key => recordsOf_applyOps _ hwf0 [] (fun k => by rw [recordsOf_new]; rfl) ops key
  refine ⟨hpl, ?_, fun key => ⟨?_, ?_⟩⟩
  · apply perm_of_filter_eq
    intro key
    rw [filter_getAllCourses _ hwf hpl, hrec key]
  · constructor
    · intro hs
      obtain ⟨c, hc⟩ := Option.isSome_iff_exists.mp hs
      exact ⟨c, (HashTable.search_mem _ hwf key c hc).2, (HashTable.search_mem _ hwf key c hc).1⟩
    · rintro ⟨c, hc, rfl⟩
      exact HashTable.search_isSome_of_stored _ hwf hpl c hc
  · rw [search_eq_head, hrec key, head?_filter_eq_find?]

set_option maxRecDepth 100000 in
/-- Witness for C22: after two inserts under `CSCI100`, a remove of `CSCI100`
and an insert of `CSCI200`, `search` of `CSCI100` returns the first record,
which is the only one left under that number. -/
theorem search_agrees_with_enumeration_witness :
    liveRecords sampleOps =
      [mkCourse "CSCI200" "Data Structures", mkCourse "CSCI100" "Introduction"] ∧
    (applyOps (HashTable.new 179) sampleOps).search "CSCI100".toList =
      (liveRecords sampleOps).find? (fun c => c.courseNumber = "CSCI100".toList) ∧
    (applyOps (HashTable.new 179) sampleOps).search "CSCI100".toList =
      some (mkCourse "CSCI100" "Introduction") :=
  ⟨by decide,
    ((search_agrees_with_enumeration 179 (by decide) sampleOps).2.2 "CSCI100".toList).2,
    by decide⟩

/-! ## Lemmas: cleanup seen on the records under one number -/

theorem cleanupStep_placed (x : Str) (ht : HashTable) (h : ht.WF) (hp : Placed ht)
    (c : Course) : Placed (cleanupStep x ht c) := by
  rw [cleanupStep_eq]
  split
  · exact hp
  · exact HashTable.placed_insert _ (HashTable.remove_WF ht h _)
      (HashTable.placed_remove ht h hp _) _

theorem recordsOf_cleanupStep (x : Str) (ht : HashTable) (h : ht.WF) (c : Course)
    (key : Str) :
    recordsOf (cleanupStep x ht c) key =
      if c.courseNumber = key then cleanupOnRecords x (recordsOf ht key) c
      else recordsOf ht key := by
  rw [cleanupStep_eq]
  unfold cleanupOnRecords
  by_cases hf : c.prerequisites.filter (fun p => p ≠ x) = c.prerequisites
  · simp only [if_pos hf, ite_self]
  · simp only [if_neg hf]
    rw [recordsOf_insert _ (HashTable.remove_WF ht h _), recordsOf_remove ht h,
      courseNumber_withoutPrerequisite]
    by_cases hc : c.courseNumber = key
    · simp only [if_pos hc]
    · simp only [if_neg hc]

theorem foldl_cleanupStep_records (x : Str) (courses : List Course) (ht : HashTable)
    (h : ht.WF) (hp : Placed ht) :
    (courses.foldl (cleanupStep x) ht).WF ∧ Placed (courses.foldl (cleanupStep x) ht) ∧
    ∀ key, recordsOf (courses.foldl (cleanupStep x) ht) key =
      (courses.filter (fun c => c.courseNumber = key)).foldl (cleanupOnRecords x)
        (recordsOf ht key) := by
  induction courses generalizing ht with
  | nil => exact ⟨h, hp, fun _ => rfl⟩
  | cons c cs ih =>
    obtain ⟨h1, h2, h3⟩ := ih (cleanupStep x ht c) (cleanupStep_WF x ht h c)
      (cleanupStep_placed x ht h hp c)
    refine ⟨h1, h2, fun key => ?_⟩
    rw [List.foldl_cons, h3 key, recordsOf_cleanupStep x ht h]
    by_cases hc : c.courseNumber = key
    · rw [List.filter_cons_of_pos (by simpa using hc), List.foldl_cons, if_pos hc]
    · rw [List.filter_cons_of_neg (by simpa using hc), if_neg hc]

theorem cleanup_records (x : Str) (ht : HashTable) (h : ht.WF) (hp : Placed ht) :
    (removePrerequisiteFromAllCourses ht x).WF ∧
    Placed (removePrerequisiteFromAllCourses ht x) ∧
    ∀ key, recordsOf (removePrerequisiteFromAllCourses ht x) key =
      (recordsOf ht key).foldl (cleanupOnRecords x) (recordsOf ht key) := by
  obtain ⟨h1, h2, h3⟩ := foldl_cleanupStep_records x ht.getAllCourses ht h hp
  refine ⟨h1, h2, fun key => ?_⟩
  unfold removePrerequisiteFromAllCourses
  rw [h3 key, filter_getAllCourses ht h hp]

theorem foldl_cleanupOnRecords (x : Str) (courses records : List Course) :
    courses.foldl (cleanupOnRecords x) records =
      match (courses.filter (rewrittenBy x)).getLast? with
      | none => records
      | some r => withoutPrerequisite x r :: records.tail := by
  induction courses generalizing records with
  | nil => rfl
  | cons c cs ih =>
    rw [List.foldl_cons, ih]
    by_cases hf : c.prerequisites.filter (fun p => p ≠ x) = c.prerequisites
    · have hr : rewrittenBy x c = false := by
        unfold rewrittenBy
        exact decide_eq_false (not_not.mpr hf)
      rw [List.filter_cons_of_neg (by simp [hr])]
      simp only [cleanupOnRecords, if_pos hf]
    · have hr : rewrittenBy x c = true := by
        unfold rewrittenBy
        exact decide_eq_true hf
      rw [List.filter_cons_of_pos hr]
      simp only [cleanupOnRecords, if_neg hf, List.tail_cons]
      cases hl : (cs.filter (rewrittenBy x)).getLast? with
      | none =>
        have hnil : cs.filter (rewrittenBy x) = [] := List.getLast?_eq_none_iff.mp hl
        rw [hnil]
        rfl
      | some r =>
        obtain ⟨ys, hys⟩ := List.getLast?_eq_some_iff.mp hl
        rw [hys]
        have : (c :: (ys ++ [r])).getLast? = some r := by
          rw [← List.cons_append, List.getLast?_append]
          rfl
        rw [this]

theorem rewrittenBy_withoutPrerequisite (x : Str) (c : Course) :
    rewrittenBy x (withoutPrerequisite x c) = false := by
  simp [rewrittenBy, withoutPrerequisite, List.filter_filter]

theorem cleanup_pass_idempotent (x : Str) (s : List Course) :
    (s.foldl (cleanupOnRecords x) s).foldl (cleanupOnRecords x)
        (s.foldl (cleanupOnRecords x) s) =
      s.foldl (cleanupOnRecords x) s := by
  cases s with
  | nil => rfl
  | cons hd tl =>
    cases hl : ((hd :: tl).filter (rewrittenBy x)).getLast? with
    | none =>
      have h1 : (hd :: tl).foldl (cleanupOnRecords x) (hd :: tl) = hd :: tl := by
        rw [foldl_cleanupOnRecords, hl]
      rw [h1, h1]
    | some r =>
      have h1 : (hd :: tl).foldl (cleanupOnRecords x) (hd :: tl) =
          withoutPrerequisite x r :: tl := by
        rw [foldl_cleanupOnRecords, hl]
        rfl
      rw [h1, foldl_cleanupOnRecords,
        List.filter_cons_of_neg (by simp [rewrittenBy_withoutPrerequisite])]
      cases hl2 : (tl.filter (rewrittenBy x)).getLast? with
      | none => rfl
      | some r2 =>
        have hr : r2 = r := by
          obtain ⟨ys, hys⟩ := List.getLast?_eq_some_iff.mp hl2
          have h2 : ((hd :: tl).filter (rewrittenBy x)).getLast? = some r2 := by
            rw [List.filter_cons]
            split
            · rw [hys, ← List.cons_append, List.getLast?_append]
              rfl
            · exact hl2
          rw [hl] at h2
          exact (Option.some.inj h2).symm
        rw [hr]
        rfl

theorem cleanup_twice_records (x : Str) (ht : HashTable) (h : ht.WF) (hp : Placed ht)
    (key : Str) :
    recordsOf (removePrerequisiteFromAllCourses (removePrerequisiteFromAllCourses ht x) x) key =
      recordsOf (removePrerequisiteFromAllCourses ht x) key := by
  obtain ⟨h1, h2, h3⟩ := cleanup_records x ht h hp
  obtain ⟨-, -, h6⟩ := cleanup_records x _ h1 h2
  rw [h6 key, h3 key]
  exact cleanup_pass_idempotent x _

theorem removeCourse_table (ht : HashTable) (input confirmation : Str) :
    (∀ a : Str, (removeCourse ht input confirmation a).2 = ht) ∨
    ((ht.search (toUpperCase (trim input))).isSome = true ∧
      ∀ a : Str, (removeCourse ht input confirmation a).2 =
        if toUpperCase (trim a) = "YES".toList then
          removePrerequisiteFromAllCourses (removePrerequisiteFromAllCourses
            (ht.remove (toUpperCase (trim input))).2 (toUpperCase (trim input)))
            (toUpperCase (trim input))
        else removePrerequisiteFromAllCourses (ht.remove (toUpperCase (trim input))).2
          (toUpperCase (trim input))) := by
  by_cases hne : (toUpperCase (trim input)).isEmpty = true
  · left; intro a
    simp [removeCourse, hne]
  · cases hs : ht.search (toUpperCase (trim input)) with
    | none =>
      left; intro a
      simp [removeCourse, hne, hs]
    | some c =>
      by_cases hcancel : (!(dependentCourses ht.getAllCourses (toUpperCase (trim input))).isEmpty
          && decide (toUpperCase (trim confirmation) ≠ "YES".toList)) = true
      · left; intro a
        unfold removeCourse
        simp only [hne, hs, hcancel, if_true, if_false, Bool.false_eq_true]
      · right
        refine ⟨rfl, fun a => ?_⟩
        have hr : (ht.remove (toUpperCase (trim input))).1 = true := by
          rw [HashTable.remove_fst, hs]; rfl
        unfold removeCourse
        simp only [hne, hs, hcancel, hr, if_true, if_false, Bool.false_eq_true]
        split <;> rfl

/-! ## Claim about the cleanup confirmation -/

/-- C23: for every table (each record in the bucket of its number), every
input and every answer to the first confirmation, the runs of `removeCourse`
with any two answers to the cleanup confirmation end in tables with the same
records, in which `search` gives the same result for every key; and applying
`removePrerequisiteFromAllCourses` a second time leaves the records and the
results of `search` as they are. -/
theorem removeCourse_cleanup_answer_irrelevant (ht : HashTable) (h : ht.WF) (hp : Placed ht)
    (input confirmation answer1 answer2 : Str) :
    ((removeCourse ht input confirmation answer1).2.getAllCourses.Perm
        (removeCourse ht input confirmation answer2).2.getAllCourses ∧
      ∀ key, (removeCourse ht input confirmation answer1).2.search key =
        (removeCourse ht input confirmation answer2).2.search key) ∧
    ∀ x : Str,
      (removePrerequisiteFromAllCourses (removePrerequisiteFromAllCourses ht x)
          x).getAllCourses.Perm (removePrerequisiteFromAllCourses ht x).getAllCourses ∧
      ∀ key, (removePrerequisiteFromAllCourses (removePrerequisiteFromAllCourses ht x)
          x).search key = (removePrerequisiteFromAllCourses ht x).search key := by
  have hidem : ∀ (t : HashTable), t.WF → Placed t → ∀ x : Str,
      (removePrerequisiteFromAllCourses (removePrerequisiteFromAllCourses t x)
          x).getAllCourses.Perm (removePrerequisiteFromAllCourses t x).getAllCourses ∧
      ∀ key, (removePrerequisiteFromAllCourses (removePrerequisiteFromAllCourses t x)
          x).search key = (removePrerequisiteFromAllCourses t x).search key := by
    intro t ht1 hp1 x
    obtain ⟨h1, h2, -⟩ := cleanup_records x t ht1 hp1
    obtain ⟨h4, h5, -⟩ := cleanup_records x _ h1 h2
    refine ⟨getAllCourses_perm_of_recordsOf _ _ h4 h5 h1 h2
      (fun key => cleanup_twice_records x t ht1 hp1 key), fun key => ?_⟩
    rw [search_eq_head, search_eq_head, cleanup_twice_records x t ht1 hp1 key]
  refine ⟨?_, hidem ht h hp⟩
  rcases removeCourse_table ht input confirmation with hsame | ⟨-, htab⟩
  · rw [hsame answer1, hsame answer2]
    exact ⟨List.Perm.refl _, fun _ => rfl⟩
  · have h0 := hidem (ht.remove (toUpperCase (trim input))).2 (HashTable.remove_WF ht h _)
      (HashTable.placed_remove ht h hp _) (toUpperCase (trim input))
    rw [htab answer1, htab answer2]
    by_cases h1 : toUpperCase (trim answer1) = "YES".toList <;>
      by_cases h2 : toUpperCase (trim answer2) = "YES".toList
    · rw [if_pos h1, if_pos h2]
      exact ⟨List.Perm.refl _, fun _ => rfl⟩
    · rw [if_pos h1, if_neg h2]
      exact h0
    · rw [if_neg h1, if_pos h2]
      exact ⟨h0.1.symm, fun key => (h0.2 key).symm⟩
    · rw [if_neg h1, if_neg h2]
      exact ⟨List.Perm.refl _, fun _ => rfl⟩

set_option maxRecDepth 100000 in
/-- Witness for C23: `CSCI100` removed from the table loaded from the file
with two lines for `CSCI200`, once with the cleanup confirmed and once with
it declined. -/
theorem removeCourse_cleanup_answer_irrelevant_witness :
    (removeCourse (loadCourseData (some sampleTwoDependentsFile) (HashTable.new 179)).2
        "CSCI100".toList "yes".toList "yes".toList).2.getAllCourses.Perm
      (removeCourse (loadCourseData (some sampleTwoDependentsFile) (HashTable.new 179)).2
        "CSCI100".toList "yes".toList "no".toList).2.getAllCourses ∧
    (removeCourse (loadCourseData (some sampleTwoDependentsFile) (HashTable.new 179)).2
        "CSCI100".toList "yes".toList "no".toList).1 = RemoveOutcome.removed false :=
  ⟨(removeCourse_cleanup_answer_irrelevant
      (loadCourseData (some sampleTwoDependentsFile) (HashTable.new 179)).2
      (by decide) (by decide)
      "CSCI100".toList "yes".toList "yes".toList "no".toList).1.1, by decide⟩

/-! ## Claim about consistency under the interactive operations -/

theorem validatePrerequisites_ok (ht : HashTable) (tokens prerequisites : List Str)
    (h : validatePrerequisites ht tokens = Except.ok prerequisites) :
    ∀ p ∈ prerequisites, (ht.search p).isSome = true := by
  induction tokens generalizing prerequisites with
  | nil =>
    simp only [validatePrerequisites, Except.ok.injEq] at h
    subst h
    intro p hp
    cases hp
  | cons t ts ih =>
    unfold validatePrerequisites at h
    simp only at h
    split at h
    · exact ih prerequisites h
    · split at h
      · cases h
      · rename_i hfound
        cases hv : validatePrerequisites ht ts with
        | error e => rw [hv] at h; cases h
        | ok ps =>
          rw [hv] at h
          simp only [Except.ok.injEq] at h
          subst h
          intro p hp
          rcases List.mem_cons.mp hp with rfl | hp
          · cases hsp : ht.search (toUpperCase (trim t)) with
            | none => rw [hsp] at hfound; exact absurd rfl hfound
            | some d => rfl
          · exact ih ps hv p hp

theorem addCourse_table (ht : HashTable) (input courseTitle prereqLine : Str) :
    (addCourse ht input courseTitle prereqLine).2 = ht ∨
    ∃ prerequisites : List Str,
      (addCourse ht input courseTitle prereqLine).2 =
        ht.insert { courseNumber := toUpperCase (trim input), courseTitle := courseTitle,
                    prerequisites := prerequisites } ∧
      ht.search (toUpperCase (trim input)) = none ∧
      ∀ p ∈ prerequisites, (ht.search p).isSome = true := by
  unfold addCourse
  simp only
  split
  · exact Or.inl rfl
  · split
    · exact Or.inl rfl
    · rename_i hnew
      have hs : ht.search (toUpperCase (trim input)) = none := by
        cases hsk : ht.search (toUpperCase (trim input)) with
        | none => rfl
        | some c => rw [hsk] at hnew; exact absurd rfl hnew
      split
      · exact Or.inl rfl
      · split
        · cases hv : validatePrerequisites ht (split prereqLine ',') with
          | error e => exact Or.inl rfl
          | ok ps => exact Or.inr ⟨ps, rfl, hs, validatePrerequisites_ok ht _ ps hv⟩
        · exact Or.inr ⟨[], rfl, hs, fun p hp => by cases hp⟩

theorem insert_keeps_consistency (ht : HashTable) (h : ht.WF) (hp : Placed ht)
    (hu : UniqueNumbers ht) (hr : PrerequisitesResolved ht) (course : Course)
    (hnew : ht.search course.courseNumber = none)
    (hpre : ∀ p ∈ course.prerequisites, (ht.search p).isSome = true) :
    UniqueNumbers (ht.insert course) ∧ PrerequisitesResolved (ht.insert course) := by
  have hperm := HashTable.getAllCourses_insert ht h course
  constructor
  · unfold UniqueNumbers at hu ⊢
    rw [(hperm.map Course.courseNumber).nodup_iff, List.map_cons, List.nodup_cons]
    refine ⟨fun hm => ?_, hu⟩
    obtain ⟨d, hd, hdc⟩ := List.mem_map.mp hm
    exact HashTable.not_stored_of_search_none ht h hp _ hnew d hd hdc
  · intro c hc p hpc
    have hold : ∀ d ∈ ht.getAllCourses, d ∈ (ht.insert course).getAllCourses :=
      fun d hd => hperm.mem_iff.mpr (List.mem_cons_of_mem _ hd)
    rcases List.mem_cons.mp (hperm.mem_iff.mp hc) with rfl | hc
    · obtain ⟨d, hd⟩ := Option.isSome_iff_exists.mp (hpre p hpc)
      exact ⟨d, hold d (HashTable.search_mem ht h p d hd).2, (HashTable.search_mem ht h p d hd).1⟩
    · obtain ⟨d, hd, hdp⟩ := hr c hc p hpc
      exact ⟨d, hold d hd, hdp⟩

theorem cleanup_resolved (x : Str) (ht : HashTable) (h : ht.WF) (hp : Placed ht)
    (hu : UniqueNumbers ht)
    (hre : ∀ c ∈ ht.getAllCourses, ∀ p ∈ c.prerequisites, p ≠ x →
      ∃ d ∈ ht.getAllCourses, d.courseNumber = p) :
    (removePrerequisiteFromAllCourses ht x).WF ∧
    Placed (removePrerequisiteFromAllCourses ht x) ∧
    UniqueNumbers (removePrerequisiteFromAllCourses ht x) ∧
    PrerequisitesResolved (removePrerequisiteFromAllCourses ht x) := by
  obtain ⟨h1, h2, h3, hperm⟩ := cleanup_perm x ht h hp hu
  refine ⟨h1, h2, h3, ?_⟩
  intro c hc p hpc
  obtain ⟨c0, hc0, rfl⟩ := List.mem_map.mp (hperm.mem_iff.mp hc)
  have hmem : p ∈ c0.prerequisites ∧ p ≠ x := by
    simpa [withoutPrerequisite, List.mem_filter] using hpc
  obtain ⟨d, hd, hdp⟩ := hre c0 hc0 p hmem.1 hmem.2
  exact ⟨withoutPrerequisite x d, hperm.mem_iff.mpr (List.mem_map_of_mem _ hd), hdp⟩

theorem remove_resolved_except (ht : HashTable) (h : ht.WF) (hr : PrerequisitesResolved ht)
    (key : Str) :
    ∀ c ∈ (ht.remove key).2.getAllCourses, ∀ p ∈ c.prerequisites, p ≠ key →
      ∃ d ∈ (ht.remove key).2.getAllCourses, d.courseNumber = p := by
  intro c hc p hpc hne
  obtain ⟨d, hd, hdp⟩ := hr c (HashTable.mem_getAllCourses_remove ht h key c hc) p hpc
  cases hs : ht.search key with
  | none =>
    rw [HashTable.remove_of_search_none ht h key hs]
    exact ⟨d, hd, hdp⟩
  | some r =>
    have hperm := HashTable.getAllCourses_remove ht h key r hs
    rcases List.mem_cons.mp (hperm.mem_iff.mp hd) with rfl | hd2
    · exact absurd ((HashTable.search_mem ht h key _ hs).1.symm.trans hdp).symm hne
    · exact ⟨d, hd2, hdp⟩

/-- C24: if no two records of a table carry the same number and every
prerequisite of every record is the number of a stored record (each record in
the bucket of its number), then the same holds of the table after any
`addCourse` call and after any `removeCourse` call, whatever the lines typed. -/
theorem operations_keep_consistency (ht : HashTable) (h : ht.WF) (hp : Placed ht)
    (hu : UniqueNumbers ht) (hr : PrerequisitesResolved ht) :
    (∀ input courseTitle prereqLine : Str,
      UniqueNumbers (addCourse ht input courseTitle prereqLine).2 ∧
      PrerequisitesResolved (addCourse ht input courseTitle prereqLine).2 ∧
      (addCourse ht input courseTitle prereqLine).2.WF ∧
      Placed (addCourse ht input courseTitle prereqLine).2) ∧
    (∀ input confirmation cleanupConfirm : Str,
      UniqueNumbers (removeCourse ht input confirmation cleanupConfirm).2 ∧
      PrerequisitesResolved (removeCourse ht input confirmation cleanupConfirm).2 ∧
      (removeCourse ht input confirmation cleanupConfirm).2.WF ∧
      Placed (removeCourse ht input confirmation cleanupConfirm).2) := by
  constructor
  · intro input courseTitle prereqLine
    rcases addCourse_table ht input courseTitle prereqLine with hsame | ⟨ps, htab, hnew, hpre⟩
    · rw [hsame]
      exact ⟨hu, hr, h, hp⟩
    · rw [htab]
      obtain ⟨h1, h2⟩ := insert_keeps_consistency ht h hp hu hr
        { courseNumber := toUpperCase (trim input), courseTitle := courseTitle,
          prerequisites := ps } hnew hpre
      exact ⟨h1, h2, HashTable.insert_WF ht h _, HashTable.placed_insert ht h hp _⟩
  · intro input confirmation cleanupConfirm
    rcases removeCourse_table ht input confirmation with hsame | ⟨-, htab⟩
    · rw [hsame cleanupConfirm]
      exact ⟨hu, hr, h, hp⟩
    · have c1 := cleanup_resolved (toUpperCase (trim input))
        (ht.remove (toUpperCase (trim input))).2 (HashTable.remove_WF ht h _)
        (HashTable.placed_remove ht h hp _) (HashTable.uniqueNumbers_remove ht h hu _)
        (remove_resolved_except ht h hr _)
      have c2 := cleanup_resolved (toUpperCase (trim input)) _ c1.1 c1.2.1 c1.2.2.1
        (fun c hc p hpc _ => c1.2.2.2 c hc p hpc)
      rw [htab cleanupConfirm]
      split
      · exact ⟨c2.2.2.1, c2.2.2.2, c2.1, c2.2.1⟩
      · exact ⟨c1.2.2.1, c1.2.2.2, c1.1, c1.2.1⟩

set_option maxRecDepth 100000 in
/-- Witness for C24: the two-course catalog after adding `CSCI300` with both
courses as prerequisites, and after removing `CSCI100` with the cleanup
declined. -/
theorem operations_keep_consistency_witness :
    (UniqueNumbers (addCourse sampleCatalog "csci300".toList "Algorithms".toList
        "csci200, csci100".toList).2 ∧
      PrerequisitesResolved (addCourse sampleCatalog "csci300".toList "Algorithms".toList
        "csci200, csci100".toList).2) ∧
    (UniqueNumbers (removeCourse sampleCatalog "CSCI100".toList "yes".toList "no".toList).2 ∧
      PrerequisitesResolved
        (removeCourse sampleCatalog "CSCI100".toList "yes".toList "no".toList).2) :=
  ⟨⟨((operations_keep_consistency sampleCatalog (by decide) (by decide) (by decide)
        (by decide)).1 "csci300".toList "Algorithms".toList "csci200, csci100".toList).1,
      ((operations_keep_consistency sampleCatalog (by decide) (by decide) (by decide)
        (by decide)).1 "csci300".toList "Algorithms".toList "csci200, csci100".toList).2.1⟩,
    ⟨((operations_keep_consistency sampleCatalog (by decide) (by decide) (by decide)
        (by decide)).2 "CSCI100".toList "yes".toList "no".toList).1,
      ((operations_keep_consistency sampleCatalog (by decide) (by decide) (by decide)
        (by decide)).2 "CSCI100".toList "yes".toList "no".toList).2.1⟩⟩

end CourseManagement
